import Mathlib

/-!
Verification development for the configuration validation module
(`src/main/Validator.ts`-style file of the desktop repository).

The module validates untrusted persisted records against @hapi/joi schemas
(with `stripUnknown: true`), after sanitizing team URLs (`cleanURL`) and the
spellchecker URL.  We shallowly embed:

* JSON-ish runtime values (`Value`): JS `undefined` is represented as an
  absent `Option`, never as a `Value`; numbers are rationals (the claims under
  study never depend on floating-point artifacts); key order of objects is
  tracked via association lists.
* the Joi combinators actually used by the source file (`Schema`), and the
  relevant part of @hapi/joi's validation semantics (`validateFieldF`):
  presence check first (a `required` key that is absent is an error and its
  declared default is *not* applied; an optional absent key receives its
  default, unchecked), then the allow/valid whitelist, then the implicit
  invalid empty string for string schemas, then the base type test and rules.
  Unknown keys are stripped (the source always passes `stripUnknown: true`),
  and output objects are produced in schema key order.  The `convert` string
  coercions of Joi are not modelled; every claim under study applies the
  validators to already-typed data.
* the validators themselves, including their JavaScript exception behavior
  (`Except Unit`: `.error ()` models a thrown `TypeError`/`SyntaxError`).

The recursive engine is indexed by fuel that decreases only along the schema
structure, so with the fixed fuel `joiFuel` it is exact for every input value
(the concrete schemas have nesting depth at most 6), and all definitions
reduce in the kernel.
-/

inductive Value where
  | vNull : Value
  | vBool (b : Bool) : Value
  | vNum (q : Rat) : Value
  | vStr (s : String) : Value
  | vArr (elems : List Value) : Value
  | vObj (fields : List (String × Value)) : Value

/-- Equality test for scalar values; every `allow`/`valid` literal occurring in
the source schemas is a scalar (`''`, `null`, `0`, `2`, `'light'`, ...), so the
deep-equality Joi performs on whitelists degenerates to this. -/
def scalarEq : Value → Value → Bool
  | .vNull, .vNull => true
  | .vBool a, .vBool b => a == b
  | .vNum a, .vNum b => a == b
  | .vStr a, .vStr b => a == b
  | _, _ => false

/-- String constraints attached to `Joi.string()` in the source file. -/
inductive StrCheck where
  | free : StrCheck
  | locale : StrCheck
  | protocol : StrCheck
  | uri : StrCheck

/-- Modelled from the spec: the key schema `Joi.string().uri()` of the
certificate / trusted-origin stores requires keys to be "valid URIs"; the RFC
check of the Joi library (whose code is not part of this repository) is
modelled as: a nonempty scheme of letters, digits, `+`, `-` or `.` starting
with a letter, followed by `:`, with no spaces anywhere. -/
def isUriString (s : String) : Bool :=
  match s.toList.splitOn ':' with
  | scheme :: rest =>
      !rest.isEmpty && !scheme.isEmpty &&
        (scheme.headD 'a').isAlpha &&
        scheme.all (fun c => c.isAlphanum || c = '+' || c = '-' || c = '.') &&
        s.toList.all (fun c => c ≠ ' ')
  | [] => false

def StrCheck.run : StrCheck → String → Bool
  | .free, _ => true
  | .locale, s =>
      match s.toList with
      | [a, b, c, d, e] => a.isLower && b.isLower && c = '-' && d.isUpper && e.isUpper
      | _ => false
  | .protocol, s =>
      let cs := s.toList
      match cs.getLast? with
      | some last =>
          last = ':' && !cs.dropLast.isEmpty &&
            cs.dropLast.all (fun c => c.isAlpha || c = '-')
      | none => false
  | .uri, s => isUriString s

/-- The Joi combinators used by the source file.  `sAny vs d` stands for
`Joi.any().allow(...).valid(...)` (every `Joi.any()` in the source carries a
`valid` whitelist, hence `allowOnly`); `sNum isInt min req d` for
`Joi.number()[.integer()][.min(m)][.required()][.default(d)]`;
`sStr check allowNull req d` for `Joi.string()` with an optional regex/uri
constraint and optional `.allow(null)`; `sObj` for `Joi.object({...})`;
`sPattern` for `Joi.object().pattern(key, value)`. -/
inductive Schema where
  | sAny (valids : List Value) (dflt : Option Value) : Schema
  | sBool (dflt : Option Value) : Schema
  | sNum (isInt : Bool) (minv : Option Rat) (req : Bool) (dflt : Option Value) : Schema
  | sStr (check : StrCheck) (allowNull : Bool) (req : Bool) (dflt : Option Value) : Schema
  | sArr (item : Schema) (dflt : Option Value) : Schema
  | sObj (keys : List (String × Schema)) : Schema
  | sPattern (keyCheck : StrCheck) (val : Schema) : Schema

def Schema.required : Schema → Bool
  | .sNum _ _ r _ => r
  | .sStr _ _ r _ => r
  | _ => false

def Schema.dflt : Schema → Option Value
  | .sAny _ d => d
  | .sBool d => d
  | .sNum _ _ _ d => d
  | .sStr _ _ _ d => d
  | .sArr _ d => d
  | _ => none

def Schema.valids : Schema → List Value
  | .sAny vs _ => vs
  | .sStr _ allowNull _ _ => if allowNull then [.vNull] else []
  | _ => []

def Schema.allowOnly : Schema → Bool
  | .sAny _ _ => true
  | _ => false

/-- Joi's `string()` type places `''` on its invalid-values list (unless
`.allow('')` is used, which no string schema of the source does). -/
def Schema.rejectsEmptyStr : Schema → Bool
  | .sStr _ _ _ _ => true
  | _ => false

def lookupKey (fs : List (String × Value)) (k : String) : Option Value :=
  match fs with
  | [] => none
  | (k', v) :: rest => if k' = k then some v else lookupKey rest k

/-- JS property assignment `obj[k] = v`: overwrite in place, or append. -/
def setKey (fs : List (String × Value)) (k : String) (v : Value) :
    List (String × Value) :=
  match fs with
  | [] => [(k, v)]
  | (k', v') :: rest => if k' = k then (k, v) :: rest else (k', v') :: setKey rest k v

/-- JS `delete obj[k]`. -/
def eraseKey (fs : List (String × Value)) (k : String) : List (String × Value) :=
  fs.filter (fun p => p.1 ≠ k)

/-- Validation of the declared keys of a `Joi.object({...})`; the result
contains exactly the declared keys whose validation produced a value, in
schema order (`stripUnknown: true` drops everything else). -/
def runKeys (vf : Schema → Option Value → Option (Option Value)) :
    List (String × Schema) → List (String × Value) → Option (List (String × Value))
  | [], _ => some []
  | (k, s) :: rest, fs =>
      match vf s (lookupKey fs k) with
      | none => none
      | some none => runKeys vf rest fs
      | some (some w) => (runKeys vf rest fs).map (fun tail => (k, w) :: tail)

/-- Validation of the items of a `Joi.array().items(s)`. -/
def runItems (vf : Schema → Option Value → Option (Option Value)) (s : Schema) :
    List Value → Option (List Value)
  | [] => some []
  | x :: xs =>
      match vf s (some x) with
      | some (some w) => (runItems vf s xs).map (fun ws => w :: ws)
      | _ => none

/-- Validation of a `Joi.object().pattern(key, value)`: keys matching the key
schema have their values validated, the rest are unknown keys and are stripped
(`stripUnknown: true`). -/
def runPattern (vf : Schema → Option Value → Option (Option Value))
    (kc : StrCheck) (s : Schema) :
    List (String × Value) → Option (List (String × Value))
  | [] => some []
  | (k, v) :: rest =>
      if kc.run k then
        match vf s (some v) with
        | some (some w) => (runPattern vf kc s rest).map (fun tail => (k, w) :: tail)
        | _ => none
      else runPattern vf kc s rest

/-- Base-type validation of a present value (reached after the whitelist and
invalid-values checks); `vf` validates child schemas.  A type mismatch or a
failing rule (`integer`, `min`, regex/uri) is an error. -/
def validateBase (vf : Schema → Option Value → Option (Option Value)) :
    Schema → Value → Option Value
  | .sAny _ _, v => some v
  | .sBool _, .vBool b => some (.vBool b)
  | .sNum isInt minv _ _, .vNum q =>
      if isInt && q.den != 1 then none
      else
        match minv with
        | some m => if q < m then none else some (.vNum q)
        | none => some (.vNum q)
  | .sStr check _ _ _, .vStr t => if check.run t then some (.vStr t) else none
  | .sArr item _, .vArr xs => (runItems vf item xs).map Value.vArr
  | .sObj keys, .vObj fs => (runKeys vf keys fs).map Value.vObj
  | .sPattern kc val, .vObj fs => (runPattern vf kc val fs).map Value.vObj
  | _, _ => none

/-- One Joi field validation.  `none` is a validation error; `some none` means
the key stays absent; `some (some w)` is the normalized value.  The fuel
argument decreases only when descending into a child schema. -/
def validateFieldF : Nat → Schema → Option Value → Option (Option Value)
  | 0 => fun _ _ => none
  | n + 1 => fun s v? =>
      match v? with
      | none => if s.required then none else some s.dflt
      | some v =>
          if (s.valids).any (fun w => scalarEq v w) then some (some v)
          else if s.allowOnly then none
          else if s.rejectsEmptyStr && scalarEq v (.vStr "") then none
          else (validateBase (validateFieldF n) s v).map some

/-- Fuel bound; the source schemas nest at most 6 levels deep, and fuel is
only consumed when descending into a child schema, so `joiFuel` makes
`validateFieldF` exact for the schemas of this file on all inputs. -/
def joiFuel : Nat := 12

def validateField (s : Schema) (v? : Option Value) : Option (Option Value) :=
  validateFieldF joiFuel s v?

/-- JS `typeof x === 'object'`: true for objects, arrays and `null`. -/
def jsTypeofObject : Value → Bool
  | .vNull => true
  | .vArr _ => true
  | .vObj _ => true
  | _ => false

/-- Translation of `validateAgainstSchema` (the schema argument is always one
of the registered schemas below, so the "no schema provided" branch of the
source cannot fire in this embedding). -/
def validateAgainstSchema (data : Value) (schema : Schema) : Option Value :=
  if jsTypeofObject data then
    match validateField schema (some data) with
    | some (some w) => some w
    | _ => none
  else none

def defaultWindowWidth : Rat := 1000
def defaultWindowHeight : Rat := 700
def minWindowWidth : Rat := 400
def minWindowHeight : Rat := 240

def argsSchema : Schema :=
  .sObj [
    ("hidden", .sBool none),
    ("disableDevMode", .sBool none),
    ("dataDir", .sStr .free false false none),
    ("version", .sBool none)]

def boundsInfoSchema : Schema :=
  .sObj [
    ("x", .sNum true none false (some (.vNum 0))),
    ("y", .sNum true none false (some (.vNum 0))),
    ("width", .sNum true (some minWindowWidth) true (some (.vNum defaultWindowWidth))),
    ("height", .sNum true (some minWindowHeight) true (some (.vNum defaultWindowHeight))),
    ("maximized", .sBool (some (.vBool false))),
    ("fullscreen", .sBool (some (.vBool false)))]

def appStateSchema : Schema :=
  .sObj [
    ("lastAppVersion", .sStr .free false false none),
    ("skippedVersion", .sStr .free false false none),
    ("updateCheckedDate", .sStr .free false false none)]

def configDataSchemaV0 : Schema :=
  .sObj [("url", .sStr .free false true none)]

/-- The `notifications` sub-schema; the source restates this object literally
inside each of the V1, V2 and V3 schemas. -/
def notificationsSchema : Schema :=
  .sObj [
    ("flashWindow", .sAny [.vNum 0, .vNum 2] (some (.vNum 0))),
    ("bounceIcon", .sBool (some (.vBool false))),
    ("bounceIconType",
      .sAny [.vStr "", .vStr "informational", .vStr "critical"]
        (some (.vStr "informational")))]

def teamSchemaV1 : Schema :=
  .sObj [
    ("name", .sStr .free false true none),
    ("url", .sStr .free false true none)]

def teamSchemaV2 : Schema :=
  .sObj [
    ("name", .sStr .free false true none),
    ("url", .sStr .free false true none),
    ("order", .sNum true (some 0) false none)]

def tabSchemaV3 : Schema :=
  .sObj [
    ("name", .sStr .free false true none),
    ("order", .sNum true (some 0) false none),
    ("isClosed", .sBool (some (.vBool false)))]

def teamSchemaV3 : Schema :=
  .sObj [
    ("name", .sStr .free false true none),
    ("url", .sStr .free false true none),
    ("order", .sNum true (some 0) false none),
    ("lastActiveTab", .sNum true (some 0) false (some (.vNum 0))),
    ("tabs", .sArr tabSchemaV3 (some (.vArr [])))]

def configDataSchemaV1 : Schema :=
  .sObj [
    ("version", .sNum false (some 1) false (some (.vNum 1))),
    ("teams", .sArr teamSchemaV1 (some (.vArr []))),
    ("showTrayIcon", .sBool (some (.vBool false))),
    ("trayIconTheme", .sAny [.vStr "", .vStr "light", .vStr "dark"] (some (.vStr "light"))),
    ("minimizeToTray", .sBool (some (.vBool false))),
    ("notifications", notificationsSchema),
    ("showUnreadBadge", .sBool (some (.vBool true))),
    ("useSpellChecker", .sBool (some (.vBool true))),
    ("enableHardwareAcceleration", .sBool (some (.vBool true))),
    ("autostart", .sBool (some (.vBool true))),
    ("spellCheckerLocale", .sStr .locale false false (some (.vStr "en-US")))]

def configDataSchemaV2 : Schema :=
  .sObj [
    ("version", .sNum false (some 2) false (some (.vNum 2))),
    ("teams", .sArr teamSchemaV2 (some (.vArr []))),
    ("showTrayIcon", .sBool (some (.vBool false))),
    ("trayIconTheme", .sAny [.vStr "", .vStr "light", .vStr "dark"] (some (.vStr "light"))),
    ("minimizeToTray", .sBool (some (.vBool false))),
    ("notifications", notificationsSchema),
    ("showUnreadBadge", .sBool (some (.vBool true))),
    ("useSpellChecker", .sBool (some (.vBool true))),
    ("enableHardwareAcceleration", .sBool (some (.vBool true))),
    ("autostart", .sBool (some (.vBool true))),
    ("spellCheckerLocale", .sStr .locale false false (some (.vStr "en-US"))),
    ("spellCheckerURL", .sStr .free true false none),
    ("darkMode", .sBool (some (.vBool false))),
    ("downloadLocation", .sStr .free false false none)]

def configDataSchemaV3 : Schema :=
  .sObj [
    ("version", .sNum false (some 2) false (some (.vNum 2))),
    ("teams", .sArr teamSchemaV3 (some (.vArr []))),
    ("showTrayIcon", .sBool (some (.vBool false))),
    ("trayIconTheme", .sAny [.vStr "", .vStr "light", .vStr "dark"] (some (.vStr "light"))),
    ("minimizeToTray", .sBool (some (.vBool false))),
    ("notifications", notificationsSchema),
    ("showUnreadBadge", .sBool (some (.vBool true))),
    ("useSpellChecker", .sBool (some (.vBool true))),
    ("enableHardwareAcceleration", .sBool (some (.vBool true))),
    ("autostart", .sBool (some (.vBool true))),
    ("spellCheckerLocale", .sStr .locale false false (some (.vStr "en-US"))),
    ("spellCheckerURL", .sStr .free true false none),
    ("darkMode", .sBool (some (.vBool false))),
    ("downloadLocation", .sStr .free false false none),
    ("lastActiveTeam", .sNum true (some 0) false (some (.vNum 0)))]

def certificateStoreSchema : Schema :=
  .sPattern .uri
    (.sObj [
      ("data", .sStr .free false false none),
      ("issuerName", .sStr .free false false none)])

def originPermissionsSchema : Schema :=
  .sObj [("canBasicAuth", .sBool (some (.vBool false)))]

def trustedOriginsSchema : Schema :=
  .sPattern .uri (.sObj [("canBasicAuth", .sBool (some (.vBool false)))])

def allowedProtocolsSchema : Schema :=
  .sArr (.sStr .protocol false false none) none

/-- The character-wise effect of `url.toLowerCase().replace(/\\/gi, '/')`:
lowercase the character, then turn a backslash into a forward slash.  The
claims under study only exercise ASCII strings, where JS `toLowerCase` and
`Char.toLower` agree. -/
def cleanChar (c : Char) : Char :=
  if c.toLower = '\\' then '/' else c.toLower

/-- Translation of `cleanURL` (the same statement block is inlined in
`validateV1ConfigData`): if the string contains a backslash
(`includes('\\')`), it is lowercased (`toLowerCase`) and every backslash is
replaced by a forward slash (`replace(/\\/gi, '/')`); otherwise it passes
through unchanged. -/
def cleanURL (url : String) : String :=
  if url.toList.contains '\\' then String.mk (url.toList.map cleanChar)
  else url

/-- Splits a character list at the first occurrence of `://`. -/
def splitScheme : List Char → Option (List Char × List Char)
  | [] => none
  | ':' :: '/' :: '/' :: rest => some ([], rest)
  | c :: rest => (splitScheme rest).map (fun p => (c :: p.1, p.2))

/-- Modelled from the spec: `urlUtils.isValidURL` (imported from
`common/utils/url`, which is not among the source files) is described as a
generic "is syntactically valid URL" predicate — scheme and host present,
parseable.  A string is accepted when it has the shape `scheme://host[/...]`
with a nonempty all-letter scheme and a nonempty host containing neither
spaces nor backslashes. -/
def isValidURL (s : String) : Bool :=
  match splitScheme s.toList with
  | some (scheme, rest) =>
      !scheme.isEmpty && scheme.all Char.isAlpha &&
        (let host := rest.takeWhile (fun c => c ≠ '/')
         !host.isEmpty && host.all (fun c => !(c = ' ' || c = '\\')))
  | none => false

/-- JS truthiness, used by the `data.spellCheckerURL && ...` guard. -/
def jsTruthy : Value → Bool
  | .vNull => false
  | .vBool b => b
  | .vNum q => q != 0
  | .vStr s => s != ""
  | .vArr _ => true
  | .vObj _ => true

/-- Modelled from the spec: `urlUtils.isValidURL` applied to an arbitrary
runtime value; a non-string is never a syntactically valid URL. -/
def isValidURLV : Value → Bool
  | .vStr s => isValidURL s
  | _ => false

/-- The filter `teams.filter(({url}) => urlUtils.isValidURL(url))`: every team
reaching the filter has been rebuilt by the map step and carries a string
`url`. -/
def teamFilterPred (t : Value) : Bool :=
  match t with
  | .vObj tfs =>
      match lookupKey tfs "url" with
      | some (.vStr u) => isValidURL u
      | _ => false
  | _ => false

/-- The map step of `validateV1ConfigData`:
`({name, url}) => { ... if (updatedURL.includes('\\')) ... return {name, url: updatedURL} }`.
Destructuring `null` throws; so does `url.includes` when `url` is not a
string (absent property, primitive team, array team).  A present `name` is
kept as is; JS would keep the key with value `undefined` when absent, which
Joi treats as a missing key, so the key is simply omitted here. -/
def cleanTeamV1 : Value → Except Unit Value
  | .vObj fs =>
      match lookupKey fs "url" with
      | some (.vStr s) =>
          .ok (.vObj ((match lookupKey fs "name" with
            | some n => [("name", n)]
            | none => []) ++ [("url", .vStr (cleanURL s))]))
      | _ => .error ()
  | _ => .error ()

/-- The map step of `validateV2ConfigData` / `validateV3ConfigData`:
`(team) => ({...team, url: cleanURL(team.url)})`.  `cleanURL` calls
`.includes` on its argument, so a team whose `url` is not a string throws a
`TypeError` (as does property access on `null`). -/
def cleanTeamV23 : Value → Except Unit Value
  | .vObj fs =>
      match lookupKey fs "url" with
      | some (.vStr s) => .ok (.vObj (setKey fs "url" (.vStr (cleanURL s))))
      | _ => .error ()
  | _ => .error ()

/-- `teams.map(...)` for a throwing mapper: elements are mapped in order and
the first thrown exception propagates. -/
def mapTeams (clean : Value → Except Unit Value) : List Value → Except Unit (List Value)
  | [] => .ok []
  | t :: ts =>
      match clean t with
      | .error e => .error e
      | .ok w =>
          match mapTeams clean ts with
          | .error e => .error e
          | .ok ws => .ok (w :: ws)

/-- The shared teams-sanitization block of `validateV1ConfigData`,
`validateV2ConfigData` and `validateV3ConfigData`:
`if (Array.isArray(data.teams) && data.teams.length) { map; filter; data.teams = teams }`.
Reading `data.teams` throws on `null` data; on any other non-object the
property is `undefined` and the block is skipped. -/
def sanitizeTeams (clean : Value → Except Unit Value) (data : Value) :
    Except Unit Value :=
  match data with
  | .vNull => .error ()
  | .vObj fs =>
      match lookupKey fs "teams" with
      | some (.vArr ts) =>
          if ts.isEmpty then .ok data
          else
            match mapTeams clean ts with
            | .error e => .error e
            | .ok ts' => .ok (.vObj (setKey fs "teams" (.vArr (ts'.filter teamFilterPred))))
      | _ => .ok data
  | _ => .ok data

/-- The spellchecker block of `validateV2ConfigData` / `validateV3ConfigData`:
`if (data.spellCheckerURL && !urlUtils.isValidURL(data.spellCheckerURL)) { log.error(...); delete data.spellCheckerURL; }`.
The boolean of the result records whether the branch fired, i.e. whether the
diagnostic was emitted. -/
def spellCheckFix (fs : List (String × Value)) : List (String × Value) × Bool :=
  match lookupKey fs "spellCheckerURL" with
  | some v =>
      if jsTruthy v && !isValidURLV v then (eraseKey fs "spellCheckerURL", true)
      else (fs, false)
  | none => (fs, false)

def validateArgs (data : Value) : Option Value :=
  validateAgainstSchema data argsSchema

def validateBoundsInfo (data : Value) : Option Value :=
  validateAgainstSchema data boundsInfoSchema

def validateAppState (data : Value) : Option Value :=
  validateAgainstSchema data appStateSchema

def validateV0ConfigData (data : Value) : Option Value :=
  validateAgainstSchema data configDataSchemaV0

def validateV1ConfigData (data : Value) : Except Unit (Option Value) :=
  match sanitizeTeams cleanTeamV1 data with
  | .error e => .error e
  | .ok d => .ok (validateAgainstSchema d configDataSchemaV1)

def validateV2ConfigData (data : Value) : Except Unit (Option Value) :=
  match sanitizeTeams cleanTeamV23 data with
  | .error e => .error e
  | .ok d =>
      match d with
      | .vObj fs => .ok (validateAgainstSchema (.vObj (spellCheckFix fs).1) configDataSchemaV2)
      | _ => .ok (validateAgainstSchema d configDataSchemaV2)

def validateV3ConfigData (data : Value) : Except Unit (Option Value) :=
  match sanitizeTeams cleanTeamV23 data with
  | .error e => .error e
  | .ok d =>
      match d with
      | .vObj fs => .ok (validateAgainstSchema (.vObj (spellCheckFix fs).1) configDataSchemaV3)
      | _ => .ok (validateAgainstSchema d configDataSchemaV3)

def validateAllowedProtocols (data : Value) : Option Value :=
  validateAgainstSchema data allowedProtocolsSchema

def jsonWs (c : Char) : Bool :=
  c = ' ' || c = '\t' || c = '\n' || c = '\r'

def skipWs : List Char → List Char
  | [] => []
  | c :: cs => if jsonWs c then skipWs cs else c :: cs

/-- Value of one hex digit of a `\uXXXX` escape. -/
def parseHexDigit (c : Char) : Option Nat :=
  if '0' ≤ c ∧ c ≤ '9' then some (c.toNat - 48)
  else if 'a' ≤ c ∧ c ≤ 'f' then some (c.toNat - 87)
  else if 'A' ≤ c ∧ c ≤ 'F' then some (c.toNat - 55)
  else none

def hex4 (h1 h2 h3 h4 : Char) : Option Nat :=
  match parseHexDigit h1, parseHexDigit h2, parseHexDigit h3, parseHexDigit h4 with
  | some a, some b, some c, some d => some (((a * 16 + b) * 16 + c) * 16 + d)
  | _, _, _, _ => none

/-- The UTF-16 code units of a JSON string literal body (after the opening
quote), as `JSON.parse` reads it: a raw control character (below U+0020) is
a syntax error, the single-character escapes and `\uXXXX` are decoded, any
other escape is a syntax error.  Returns the units and the rest of the input
after the closing quote. -/
def parseStrUnits : List Char → Option (List Nat × List Char)
  | [] => none
  | c :: cs =>
      if c = '"' then some ([], cs)
      else if c = '\\' then
        match cs with
        | 'u' :: h1 :: h2 :: h3 :: h4 :: cs' =>
            match hex4 h1 h2 h3 h4 with
            | some code => (parseStrUnits cs').map (fun p => (code :: p.1, p.2))
            | none => none
        | e :: cs' =>
            let esc? : Option Char :=
              if e = '"' then some '"'
              else if e = '\\' then some '\\'
              else if e = '/' then some '/'
              else if e = 'n' then some '\n'
              else if e = 't' then some '\t'
              else if e = 'r' then some '\r'
              else if e = 'b' then some (Char.ofNat 8)
              else if e = 'f' then some (Char.ofNat 12)
              else none
            match esc? with
            | some ch => (parseStrUnits cs').map (fun p => (ch.toNat :: p.1, p.2))
            | none => none
        | [] => none
      else if c.toNat < 32 then none
      else (parseStrUnits cs).map (fun p => (c.toNat :: p.1, p.2))

/-- UTF-16 decoding of the escaped units: a high surrogate immediately
followed by a low surrogate yields the astral character, exactly as a
`\uXXXX\uYYYY` pair does in `JSON.parse`.  A *lone* surrogate does not throw
in JS but exists in a JS string only; it goes through `Char.ofNat`, which
maps it into valid `Char` range — the one place where Lean's `String`
(which cannot hold lone surrogates) abstracts the JS string. -/
def utf16Combine : List Nat → List Char
  | [] => []
  | [u] => [Char.ofNat u]
  | u :: v :: us =>
      if 0xD800 ≤ u ∧ u ≤ 0xDBFF then
        if 0xDC00 ≤ v ∧ v ≤ 0xDFFF then
          Char.ofNat (0x10000 + (u - 0xD800) * 0x400 + (v - 0xDC00)) :: utf16Combine us
        else Char.ofNat u :: utf16Combine (v :: us)
      else Char.ofNat u :: utf16Combine (v :: us)

/-- Body of a JSON string literal: decoded characters plus the rest of the
input after the closing quote. -/
def parseStrBody (cs : List Char) : Option (List Char × List Char) :=
  (parseStrUnits cs).map (fun p => (utf16Combine p.1, p.2))

def digitsVal (ds : List Char) : Nat :=
  ds.foldl (fun a c => 10 * a + (c.toNat - 48)) 0

def parseExpDigits (cs : List Char) : Option (Nat × List Char) :=
  let ds := cs.takeWhile Char.isDigit
  if ds.isEmpty then none
  else some (digitsVal ds, cs.dropWhile Char.isDigit)

/-- Mantissa `m`, fractional length `k` and the exponent digits combine into
`m * 10 ^ e / 10 ^ k`; the arithmetic stays in `Nat` with one final `mkRat`. -/
def parseExpPart (m k : Nat) : List Char → Option (Rat × List Char)
  | '+' :: r => (parseExpDigits r).map (fun p => (mkRat (m * 10 ^ p.1) (10 ^ k), p.2))
  | '-' :: r => (parseExpDigits r).map (fun p => (mkRat m (10 ^ k * 10 ^ p.1), p.2))
  | r => (parseExpDigits r).map (fun p => (mkRat (m * 10 ^ p.1) (10 ^ k), p.2))

/-- A JSON number after the optional leading minus, per the JSON grammar:
an integer part (a single `0`, or a nonzero digit followed by digits — a
leading zero as in `01` is a syntax error), an optional `.digits` fraction
and an optional `e`/`E` exponent, read as an exact rational (the binary
double rounding of JS numbers is abstracted away, as for every number of
this model). -/
def parseNumJson (cs : List Char) : Option (Rat × List Char) :=
  match (match cs with
         | '0' :: r => some ((0 : Nat), r)
         | c :: r =>
             if c.isDigit then
               some (digitsVal (c :: r.takeWhile Char.isDigit), r.dropWhile Char.isDigit)
             else none
         | [] => none) with
  | none => none
  | some (i, r1) =>
      match (match r1 with
             | '.' :: r2 =>
                 if (r2.takeWhile Char.isDigit).isEmpty then none
                 else some (i * 10 ^ (r2.takeWhile Char.isDigit).length +
                     digitsVal (r2.takeWhile Char.isDigit),
                   (r2.takeWhile Char.isDigit).length, r2.dropWhile Char.isDigit)
             | _ => some (i, (0 : Nat), r1)) with
      | none => none
      | some (m, k, r2) =>
          match r2 with
          | 'e' :: r3 => parseExpPart m k r3
          | 'E' :: r3 => parseExpPart m k r3
          | _ => some (mkRat m (10 ^ k), r2)

/-- Comma-separated array elements up to the closing `]`; `pv` parses one
value, the fuel bounds the number of elements. -/
def parseArrBody (pv : List Char → Option (Value × List Char)) :
    Nat → List Char → Option (List Value × List Char)
  | 0, _ => none
  | n + 1, cs =>
      match pv cs with
      | none => none
      | some (v, r) =>
          match skipWs r with
          | ',' :: r' => (parseArrBody pv n r').map (fun p => (v :: p.1, p.2))
          | ']' :: r' => some ([v], r')
          | _ => none

/-- Comma-separated `"key": value` members up to the closing `}`. -/
def parseObjBody (pv : List Char → Option (Value × List Char)) :
    Nat → List Char → Option (List (String × Value) × List Char)
  | 0, _ => none
  | n + 1, cs =>
      match skipWs cs with
      | '"' :: r =>
          match parseStrBody r with
          | none => none
          | some (kcs, r1) =>
              match skipWs r1 with
              | ':' :: r2 =>
                  match pv r2 with
                  | none => none
                  | some (v, r3) =>
                      match skipWs r3 with
                      | ',' :: r4 =>
                          (parseObjBody pv n r4).map
                            (fun p => ((String.mk kcs, v) :: p.1, p.2))
                      | '}' :: r4 => some ([(String.mk kcs, v)], r4)
                      | _ => none
              | _ => none
      | _ => none

/-- One JSON value.  Duplicate object keys behave as in `JSON.parse`: a later
member overwrites the earlier one in its original position (the `setKey`
fold). -/
def parseJsonF : Nat → List Char → Option (Value × List Char)
  | 0 => fun _ => none
  | n + 1 => fun cs0 =>
      match skipWs cs0 with
      | 'n' :: 'u' :: 'l' :: 'l' :: r => some (.vNull, r)
      | 't' :: 'r' :: 'u' :: 'e' :: r => some (.vBool true, r)
      | 'f' :: 'a' :: 'l' :: 's' :: 'e' :: r => some (.vBool false, r)
      | '"' :: r => (parseStrBody r).map (fun p => (.vStr (String.mk p.1), p.2))
      | '[' :: r =>
          match skipWs r with
          | ']' :: rr => some (.vArr [], rr)
          | r' => (parseArrBody (parseJsonF n) (r'.length + 1) r').map
              (fun p => (.vArr p.1, p.2))
      | '{' :: r =>
          match skipWs r with
          | '}' :: rr => some (.vObj [], rr)
          | r' => (parseObjBody (parseJsonF n) (r'.length + 1) r').map
              (fun p => (.vObj (p.1.foldl (fun acc kv => setKey acc kv.1 kv.2) []), p.2))
      | '-' :: r => (parseNumJson r).map (fun p => (.vNum (-p.1), p.2))
      | c :: r =>
          if c.isDigit then (parseNumJson (c :: r)).map (fun p => (.vNum p.1, p.2))
          else none
      | [] => none

/-- Model of `JSON.parse`: `none` means the parse throws a `SyntaxError`.
The JSON grammar is followed exactly — leading-zero numbers such as `01` and
raw control characters inside string literals are syntax errors, while
fractions, exponents and `\uXXXX` escapes are accepted; numbers are read as
exact rationals. -/
def jsonParse (s : String) : Option Value :=
  match parseJsonF (s.length + 1) s.toList with
  | some (v, r) => if (skipWs r).isEmpty then some v else none
  | none => none

/-- Translation of `validateCertificateStore`: a string input goes through
`JSON.parse` (which throws on malformed input — modelled by `.error ()`);
anything of JS type `object` is validated directly. -/
def validateCertificateStore (data : Value) : Except Unit (Option Value) :=
  match data with
  | .vStr s =>
      match jsonParse s with
      | some j => .ok (validateAgainstSchema j certificateStoreSchema)
      | none => .error ()
  | _ => .ok (validateAgainstSchema data certificateStoreSchema)

def validateTrustedOriginsStore (data : Value) : Except Unit (Option Value) :=
  match data with
  | .vStr s =>
      match jsonParse s with
      | some j => .ok (validateAgainstSchema j trustedOriginsSchema)
      | none => .error ()
  | _ => .ok (validateAgainstSchema data trustedOriginsSchema)

def validateOriginPermissions (data : Value) : Except Unit (Option Value) :=
  match data with
  | .vStr s =>
      match jsonParse s with
      | some j => .ok (validateAgainstSchema j originPermissionsSchema)
      | none => .error ()
  | _ => .ok (validateAgainstSchema data originPermissionsSchema)

/-! ### Association-list lemmas -/

theorem lookupKey_none_of_not_mem : ∀ (fs : List (String × Value)) (k : String),
    k ∉ fs.map Prod.fst → lookupKey fs k = none
  | [], _, _ => rfl
  | (k', _) :: rest, k, h => by
      have hk : ¬(k' = k) := fun he => h (by simp [he])
      have hr : k ∉ rest.map Prod.fst := fun hm => h (by simp [hm])
      simp only [lookupKey, if_neg hk]
      exact lookupKey_none_of_not_mem rest k hr

theorem lookupKey_filter (pk : String → Bool) :
    ∀ (fs : List (String × Value)) (k : String), pk k = true →
    lookupKey (fs.filter (fun q => pk q.1)) k = lookupKey fs k
  | [], _, _ => rfl
  | (k', v) :: rest, k, h => by
      by_cases hk : k' = k
      · subst hk
        simp [List.filter_cons, h, lookupKey]
      · cases hp : pk k' <;>
          · simp only [List.filter_cons, hp, lookupKey, if_neg hk]
            exact lookupKey_filter pk rest k h

theorem lookupKey_setKey_self : ∀ (fs : List (String × Value)) (k : String) (v : Value),
    lookupKey (setKey fs k v) k = some v
  | [], k, v => by simp [setKey, lookupKey]
  | (k', v') :: rest, k, v => by
      by_cases hk : k' = k
      · simp [setKey, hk, lookupKey]
      · simp only [setKey, if_neg hk, lookupKey, if_neg hk]
        exact lookupKey_setKey_self rest k v

theorem lookupKey_setKey_ne : ∀ (fs : List (String × Value)) (k : String) (v : Value)
    (k' : String), k ≠ k' → lookupKey (setKey fs k v) k' = lookupKey fs k'
  | [], k, v, k', h => by simp [setKey, lookupKey, h]
  | (k0, v0) :: rest, k, v, k', h => by
      by_cases hk : k0 = k
      · subst hk
        simp [setKey, lookupKey, h]
      · simp only [setKey, if_neg hk, lookupKey]
        by_cases hk' : k0 = k'
        · simp [hk']
        · simp only [if_neg hk']
          exact lookupKey_setKey_ne rest k v k' h

theorem setKey_self : ∀ (fs : List (String × Value)) (k : String) (v : Value),
    lookupKey fs k = some v → setKey fs k v = fs
  | [], k, v, h => by simp [lookupKey] at h
  | (k0, v0) :: rest, k, v, h => by
      by_cases hk : k0 = k
      · subst hk
        simp [lookupKey] at h
        simp [setKey, h]
      · simp only [lookupKey, if_neg hk] at h
        simp only [setKey, if_neg hk, List.cons.injEq, true_and]
        exact setKey_self rest k v h

theorem setKey_filter (pk : String → Bool) (k : String) (hpk : pk k = true) :
    ∀ (fs : List (String × Value)) (v : Value),
    setKey (fs.filter (fun q => pk q.1)) k v = (setKey fs k v).filter (fun q => pk q.1)
  | [], v => by simp [setKey, List.filter_cons, hpk]
  | (k0, v0) :: rest, v => by
      by_cases hk : k0 = k
      · subst hk
        simp [List.filter_cons, hpk, setKey]
      · have ih := setKey_filter pk k hpk rest v
        cases hp : pk k0 <;>
          simp [List.filter_cons, hp, setKey, hk, ih]

theorem lookupKey_eraseKey_self : ∀ (fs : List (String × Value)) (k : String),
    lookupKey (eraseKey fs k) k = none
  | [], _ => rfl
  | (k0, v0) :: rest, k => by
      have ih := lookupKey_eraseKey_self rest k
      by_cases hk : k0 = k
      · subst hk
        simp only [eraseKey, List.filter_cons] at ih ⊢
        simpa using ih
      · simp only [eraseKey, List.filter_cons] at ih ⊢
        simpa [hk, lookupKey] using ih

theorem lookupKey_eraseKey_ne : ∀ (fs : List (String × Value)) (k k' : String),
    k ≠ k' → lookupKey (eraseKey fs k) k' = lookupKey fs k'
  | [], _, _, _ => rfl
  | (k0, v0) :: rest, k, k', h => by
      have ih := lookupKey_eraseKey_ne rest k k' h
      by_cases hk : k0 = k
      · subst hk
        have hne : ¬(k0 = k') := h
        simp only [eraseKey, List.filter_cons] at ih ⊢
        simpa [lookupKey, hne] using ih
      · simp only [eraseKey, List.filter_cons] at ih ⊢
        by_cases hk' : k0 = k'
        · simp [hk, hk', lookupKey, Ne.symm h]
        · simpa [hk, hk', lookupKey] using ih

theorem eraseKey_filter (pk : String → Bool) (k : String) :
    ∀ (fs : List (String × Value)),
    eraseKey (fs.filter (fun q => pk q.1)) k = (eraseKey fs k).filter (fun q => pk q.1)
  | [] => rfl
  | (k0, v0) :: rest => by
      have ih := eraseKey_filter pk k rest
      by_cases hk : k0 = k
      · subst hk
        cases hp : pk k0 <;>
          · simp [eraseKey, List.filter_cons, hp, ih]
            exact List.filter_congr (fun a _ => Bool.and_comm _ _)
      · cases hp : pk k0 <;>
          · simp [eraseKey, List.filter_cons, hp, hk, ih]
            exact List.filter_congr (fun a _ => Bool.and_comm _ _)

/-! ### Validation-engine lemmas -/

/-- A field that is present in the input never validates to "absent". -/
theorem validateFieldF_some_ne (n : Nat) (s : Schema) (v : Value) :
    validateFieldF n s (some v) ≠ some none := by
  cases n with
  | zero => simp [validateFieldF]
  | succ n =>
      intro h
      simp only [validateFieldF] at h
      split at h
      · simp at h
      · split at h
        · simp at h
        · split at h
          · simp at h
          · rcases Option.map_eq_some'.mp h with ⟨a, _, ha⟩
            cases ha

theorem runKeys_subset (vf : Schema → Option Value → Option (Option Value)) :
    ∀ (ks : List (String × Schema)) (fs out : List (String × Value)),
    runKeys vf ks fs = some out → ∀ p ∈ out, p.1 ∈ ks.map Prod.fst
  | [], fs, out, h => by
      simp only [runKeys, Option.some.injEq] at h
      subst h
      intro p hp
      cases hp
  | (k, s) :: rest, fs, out, h => by
      simp only [runKeys] at h
      cases hv : vf s (lookupKey fs k) with
      | none => rw [hv] at h; cases h
      | some res =>
          rw [hv] at h
          cases res with
          | none =>
              intro p hp
              have := runKeys_subset vf rest fs out h p hp
              simp only [List.map_cons]
              exact List.mem_cons_of_mem _ this
          | some w =>
              rcases Option.map_eq_some'.mp h with ⟨tail, htail, hout⟩
              subst hout
              intro p hp
              rcases List.mem_cons.mp hp with rfl | hp'
              · simp
              · simp only [List.map_cons]
                exact List.mem_cons_of_mem _ (runKeys_subset vf rest fs tail htail p hp')

theorem runKeys_congr (vf : Schema → Option Value → Option (Option Value)) :
    ∀ (ks : List (String × Schema)) (fs fs' : List (String × Value)),
    (∀ k s, (k, s) ∈ ks → lookupKey fs k = lookupKey fs' k) →
    runKeys vf ks fs = runKeys vf ks fs'
  | [], _, _, _ => rfl
  | (k, s) :: rest, fs, fs', h => by
      have hk := h k s (List.mem_cons_self _ _)
      have ih := runKeys_congr vf rest fs fs'
        (fun k' s' hm => h k' s' (List.mem_cons_of_mem _ hm))
      simp only [runKeys, hk, ih]

theorem runKeys_none_of_field (vf : Schema → Option Value → Option (Option Value)) :
    ∀ (ks : List (String × Schema)) (fs : List (String × Value)) (k : String) (s : Schema),
    (k, s) ∈ ks → vf s (lookupKey fs k) = none → runKeys vf ks fs = none
  | [], _, _, _, hmem, _ => by cases hmem
  | (k0, s0) :: rest, fs, k, s, hmem, he => by
      rcases List.mem_cons.mp hmem with heq | hmem'
      · injection heq with h1 h2
        subst h1; subst h2
        simp only [runKeys, he]
      · have ih := runKeys_none_of_field vf rest fs k s hmem' he
        simp only [runKeys, ih]
        cases hv : vf s0 (lookupKey fs k0) with
        | none => rfl
        | some res => cases res <;> simp

theorem runKeys_lookupKey (vf : Schema → Option Value → Option (Option Value)) :
    ∀ (ks : List (String × Schema)) (fs out : List (String × Value)),
    (ks.map Prod.fst).Nodup → runKeys vf ks fs = some out →
    ∀ k s, (k, s) ∈ ks → vf s (lookupKey fs k) = some (lookupKey out k)
  | [], _, _, _, _, _, _, hmem => by cases hmem
  | (k0, s0) :: rest, fs, out, hnd, h, k, s, hmem => by
      simp only [List.map_cons, List.nodup_cons] at hnd
      obtain ⟨hk0, hnd'⟩ := hnd
      simp only [runKeys] at h
      cases hv : vf s0 (lookupKey fs k0) with
      | none => rw [hv] at h; cases h
      | some res =>
          rw [hv] at h
          cases res with
          | none =>
              rcases List.mem_cons.mp hmem with heq | hmem'
              · injection heq with h1 h2
                subst h1; subst h2
                have hnone : lookupKey out k = none := by
                  apply lookupKey_none_of_not_mem
                  intro hmem0
                  rcases List.mem_map.mp hmem0 with ⟨p, hp, hp1⟩
                  have hsub := runKeys_subset vf rest fs out h p hp
                  rw [hp1] at hsub
                  exact hk0 hsub
                rw [hnone]
                exact hv
              · exact runKeys_lookupKey vf rest fs out hnd' h k s hmem'
          | some w =>
              rcases Option.map_eq_some'.mp h with ⟨tail, htail, hout⟩
              subst hout
              rcases List.mem_cons.mp hmem with heq | hmem'
              · injection heq with h1 h2
                subst h1; subst h2
                simp only [lookupKey, if_pos rfl]
                exact hv
              · have hk : k ≠ k0 := by
                  intro he
                  exact hk0 (he ▸ List.mem_map_of_mem Prod.fst hmem')
                have ih := runKeys_lookupKey vf rest fs tail hnd' htail k s hmem'
                simpa only [lookupKey, if_neg (Ne.symm hk)] using ih

theorem runKeys_cons_irrel (vf : Schema → Option Value → Option (Option Value))
    (ks : List (String × Schema)) (k : String) (w : Value) (l : List (String × Value))
    (h : k ∉ ks.map Prod.fst) :
    runKeys vf ks ((k, w) :: l) = runKeys vf ks l := by
  apply runKeys_congr
  intro k' s' hm
  have hk : ¬(k = k') := fun he => h (he ▸ List.mem_map_of_mem Prod.fst hm)
  simp [lookupKey, hk]

theorem runItems_idem (vf : Schema → Option Value → Option (Option Value)) (s : Schema)
    (hidem : ∀ x res, vf s x = some res → vf s res = some res) :
    ∀ (xs ws : List Value), runItems vf s xs = some ws → runItems vf s ws = some ws
  | [], ws, h => by
      simp only [runItems, Option.some.injEq] at h
      subst h
      rfl
  | x :: xs, ws, h => by
      simp only [runItems] at h
      cases hv : vf s (some x) with
      | none => rw [hv] at h; cases h
      | some res =>
          rw [hv] at h
          cases res with
          | none => cases h
          | some w =>
              rcases Option.map_eq_some'.mp h with ⟨tail, htail, hw⟩
              subst hw
              have h2 : vf s (some w) = some (some w) := hidem (some x) (some w) hv
              have ih := runItems_idem vf s hidem xs tail htail
              simp only [runItems, h2, ih, Option.map_some']

theorem runPattern_subset (vf : Schema → Option Value → Option (Option Value))
    (kc : StrCheck) (s : Schema) :
    ∀ (fs out : List (String × Value)), runPattern vf kc s fs = some out →
    ∀ p ∈ out, kc.run p.1 = true
  | [], out, h => by
      simp only [runPattern, Option.some.injEq] at h
      subst h
      intro p hp
      cases hp
  | (k, v) :: rest, out, h => by
      simp only [runPattern] at h
      by_cases hkc : kc.run k = true
      · rw [if_pos hkc] at h
        cases hv : vf s (some v) with
        | none => rw [hv] at h; cases h
        | some res =>
            rw [hv] at h
            cases res with
            | none => cases h
            | some w =>
                rcases Option.map_eq_some'.mp h with ⟨tail, htail, hout⟩
                subst hout
                intro p hp
                rcases List.mem_cons.mp hp with rfl | hp'
                · exact hkc
                · exact runPattern_subset vf kc s rest tail htail p hp'
      · rw [if_neg hkc] at h
        exact runPattern_subset vf kc s rest out h

theorem runPattern_idem (vf : Schema → Option Value → Option (Option Value))
    (kc : StrCheck) (s : Schema)
    (hidem : ∀ x res, vf s x = some res → vf s res = some res) :
    ∀ (fs out : List (String × Value)), runPattern vf kc s fs = some out →
    runPattern vf kc s out = some out
  | [], out, h => by
      simp only [runPattern, Option.some.injEq] at h
      subst h
      rfl
  | (k, v) :: rest, out, h => by
      simp only [runPattern] at h
      by_cases hkc : kc.run k = true
      · rw [if_pos hkc] at h
        cases hv : vf s (some v) with
        | none => rw [hv] at h; cases h
        | some res =>
            rw [hv] at h
            cases res with
            | none => cases h
            | some w =>
                rcases Option.map_eq_some'.mp h with ⟨tail, htail, hout⟩
                subst hout
                have h2 : vf s (some w) = some (some w) := hidem (some v) (some w) hv
                have ih := runPattern_idem vf kc s hidem rest tail htail
                simp [runPattern, hkc, h2, ih]
      · rw [if_neg hkc] at h
        exact runPattern_idem vf kc s hidem rest out h

theorem runPattern_filter (vf : Schema → Option Value → Option (Option Value))
    (kc : StrCheck) (s : Schema) :
    ∀ (fs : List (String × Value)),
    runPattern vf kc s (fs.filter (fun q => kc.run q.1)) = runPattern vf kc s fs
  | [] => rfl
  | (k, v) :: rest => by
      have ih := runPattern_filter vf kc s rest
      by_cases hkc : kc.run k = true
      · simp only [List.filter_cons, hkc, runPattern, if_pos hkc, ih]
      · simp only [List.filter_cons, runPattern]
        rw [if_neg hkc]
        simp only [Bool.not_eq_true] at hkc
        simp only [hkc, Bool.false_eq_true, if_false]
        exact ih

theorem runKeys_idem (vf : Schema → Option Value → Option (Option Value)) :
    ∀ (ks : List (String × Schema)) (fs out : List (String × Value)),
    (ks.map Prod.fst).Nodup →
    (∀ k s, (k, s) ∈ ks → ∀ x res, vf s x = some res → vf s res = some res) →
    (∀ k s, (k, s) ∈ ks → ∀ v, vf s (some v) ≠ some none) →
    runKeys vf ks fs = some out → runKeys vf ks out = some out
  | [], fs, out, _, _, _, h => by
      simp only [runKeys, Option.some.injEq] at h
      subst h
      rfl
  | (k0, s0) :: rest, fs, out, hnd, hidem, hne, h => by
      simp only [List.map_cons, List.nodup_cons] at hnd
      obtain ⟨hk0, hnd'⟩ := hnd
      have hidem' := fun k s hm => hidem k s (List.mem_cons_of_mem _ hm)
      have hne' := fun k s hm => hne k s (List.mem_cons_of_mem _ hm)
      simp only [runKeys] at h
      cases hv : vf s0 (lookupKey fs k0) with
      | none => rw [hv] at h; cases h
      | some res =>
          rw [hv] at h
          cases res with
          | none =>
              have hlk : lookupKey fs k0 = none := by
                cases hl : lookupKey fs k0 with
                | none => rfl
                | some v =>
                    rw [hl] at hv
                    exact absurd hv (hne k0 s0 (List.mem_cons_self _ _) v)
              have hout : lookupKey out k0 = none := by
                apply lookupKey_none_of_not_mem
                intro hm
                rcases List.mem_map.mp hm with ⟨p, hp, hp1⟩
                have hsub := runKeys_subset vf rest fs out h p hp
                rw [hp1] at hsub
                exact hk0 hsub
              have ih := runKeys_idem vf rest fs out hnd' hidem' hne' h
              rw [hlk] at hv
              simp only [runKeys, hout, hv]
              exact ih
          | some w =>
              rcases Option.map_eq_some'.mp h with ⟨tail, htail, hout⟩
              subst hout
              have hvw : vf s0 (some w) = some (some w) :=
                hidem k0 s0 (List.mem_cons_self _ _) _ _ hv
              have hirr := runKeys_cons_irrel vf rest k0 w tail hk0
              have ih := runKeys_idem vf rest fs tail hnd' hidem' hne' htail
              simp [runKeys, lookupKey, hvw, hirr, ih]

def Schema.isContainer : Schema → Bool
  | .sArr _ _ => true
  | .sObj _ => true
  | .sPattern _ _ => true
  | _ => false

/-- For a non-container schema the base validation returns the value
unchanged (or fails). -/
theorem validateBase_scalar (vf : Schema → Option Value → Option (Option Value))
    (s : Schema) (v w : Value) (hs : s.isContainer = false)
    (h : validateBase vf s v = some w) : w = v := by
  cases s <;> simp [Schema.isContainer] at hs <;> cases v <;>
    simp [validateBase] at h <;>
    (try (repeat' split at h)) <;> simp_all

/-- Well-formedness needed for idempotence: every declared default revalidates
to itself, and object key lists are duplicate-free; fuel-indexed in step with
`validateFieldF`. -/
def SchemaOKF : Nat → Schema → Prop
  | 0, _ => True
  | n + 1, s =>
      (∀ d, s.dflt = some d → validateFieldF (n + 1) s (some d) = some (some d)) ∧
      (match s with
       | .sArr item _ => SchemaOKF n item
       | .sObj keys => (keys.map Prod.fst).Nodup ∧ ∀ k s', (k, s') ∈ keys → SchemaOKF n s'
       | .sPattern _ val => SchemaOKF n val
       | _ => True)

/-- Normalization is idempotent: a value produced by validation revalidates to
itself (for well-formed schemas). -/
theorem validateFieldF_idem : ∀ (n : Nat) (s : Schema), SchemaOKF n s →
    ∀ (x res : Option Value),
    validateFieldF n s x = some res → validateFieldF n s res = some res
  | 0, s, _, x, res, h => by simp [validateFieldF] at h
  | n + 1, s, hok, x, res, h => by
      obtain ⟨hdflt, hchild⟩ := hok
      cases x with
      | none =>
          simp only [validateFieldF] at h
          by_cases hreq : s.required = true
          · rw [if_pos hreq] at h; cases h
          · rw [if_neg hreq] at h
            injection h with h'
            subst h'
            cases hd : s.dflt with
            | none =>
                simp only [validateFieldF, if_neg hreq, hd]
            | some d => exact hdflt d hd
      | some v =>
          simp only [validateFieldF] at h
          by_cases h1 : ((s.valids).any fun w => scalarEq v w) = true
          · rw [if_pos h1] at h
            injection h with h'
            subst h'
            simp only [validateFieldF, h1, if_pos]
          · rw [if_neg h1] at h
            by_cases h2 : s.allowOnly = true
            · rw [if_pos h2] at h; cases h
            · rw [if_neg h2] at h
              by_cases h3 : (s.rejectsEmptyStr && scalarEq v (.vStr "")) = true
              · rw [if_pos h3] at h; cases h
              · rw [if_neg h3] at h
                rcases Option.map_eq_some'.mp h with ⟨w, hw, hres⟩
                subst hres
                cases hc : s.isContainer with
                | false =>
                    have hwv := validateBase_scalar _ s v w hc hw
                    subst hwv
                    simp only [validateFieldF, if_neg h1, if_neg h2, if_neg h3, hw,
                      Option.map_some']
                | true =>
                    cases s with
                    | sArr item d =>
                        cases v with
                        | vArr xs =>
                            simp only [validateBase] at hw
                            rcases Option.map_eq_some'.mp hw with ⟨ws, hws, hwarr⟩
                            subst hwarr
                            have hitems := runItems_idem (validateFieldF n) item
                              (fun x res => validateFieldF_idem n item hchild x res) xs ws hws
                            simp [validateFieldF, Schema.valids, Schema.allowOnly,
                              Schema.rejectsEmptyStr, validateBase, hitems]
                        | vNull => simp [validateBase] at hw
                        | vBool b => simp [validateBase] at hw
                        | vNum q => simp [validateBase] at hw
                        | vStr t => simp [validateBase] at hw
                        | vObj fs => simp [validateBase] at hw
                    | sObj keys =>
                        cases v with
                        | vObj fs =>
                            simp only [validateBase] at hw
                            rcases Option.map_eq_some'.mp hw with ⟨out, hout, hwobj⟩
                            subst hwobj
                            obtain ⟨hnd, hkok⟩ := hchild
                            have hkeys := runKeys_idem (validateFieldF n) keys fs out hnd
                              (fun k s' hm x res => validateFieldF_idem n s' (hkok k s' hm) x res)
                              (fun k s' _ v' => validateFieldF_some_ne n s' v')
                              hout
                            simp [validateFieldF, Schema.valids, Schema.allowOnly,
                              Schema.rejectsEmptyStr, validateBase, hkeys]
                        | vNull => simp [validateBase] at hw
                        | vBool b => simp [validateBase] at hw
                        | vNum q => simp [validateBase] at hw
                        | vStr t => simp [validateBase] at hw
                        | vArr xs => simp [validateBase] at hw
                    | sPattern kc val =>
                        cases v with
                        | vObj fs =>
                            simp only [validateBase] at hw
                            rcases Option.map_eq_some'.mp hw with ⟨out, hout, hwobj⟩
                            subst hwobj
                            have hpat := runPattern_idem (validateFieldF n) kc val
                              (fun x res => validateFieldF_idem n val hchild x res) fs out hout
                            simp [validateFieldF, Schema.valids, Schema.allowOnly,
                              Schema.rejectsEmptyStr, validateBase, hpat]
                        | vNull => simp [validateBase] at hw
                        | vBool b => simp [validateBase] at hw
                        | vNum q => simp [validateBase] at hw
                        | vStr t => simp [validateBase] at hw
                        | vArr xs => simp [validateBase] at hw
                    | sAny vs d => simp [Schema.isContainer] at hc
                    | sBool d => simp [Schema.isContainer] at hc
                    | sNum a b c d => simp [Schema.isContainer] at hc
                    | sStr a b c d => simp [Schema.isContainer] at hc

/-! ### Well-formedness of the concrete schemas -/

theorem schemaOKF_of_scalar (s : Schema) (hs : s.isContainer = false)
    (hd : ∀ n d, s.dflt = some d → validateFieldF (n + 1) s (some d) = some (some d)) :
    ∀ n, SchemaOKF n s
  | 0 => trivial
  | n + 1 => ⟨hd n, by cases s <;> (try exact trivial) <;> simp [Schema.isContainer] at hs⟩

theorem okfStrReq : ∀ n, SchemaOKF n (Schema.sStr .free false true none) :=
  schemaOKF_of_scalar _ rfl (fun _ d h => by simp [Schema.dflt] at h)

theorem okfStrOpt : ∀ n, SchemaOKF n (Schema.sStr .free false false none) :=
  schemaOKF_of_scalar _ rfl (fun _ d h => by simp [Schema.dflt] at h)

theorem okfStrNull : ∀ n, SchemaOKF n (Schema.sStr .free true false none) :=
  schemaOKF_of_scalar _ rfl (fun _ d h => by simp [Schema.dflt] at h)

theorem okfOrder : ∀ n, SchemaOKF n (Schema.sNum true (some 0) false none) :=
  schemaOKF_of_scalar _ rfl (fun _ d h => by simp [Schema.dflt] at h)

theorem okfNumZeroDflt : ∀ n, SchemaOKF n (Schema.sNum true (some 0) false (some (.vNum 0))) :=
  schemaOKF_of_scalar _ rfl (fun _ d h => by injection h with h1; subst h1; rfl)

theorem okfBoolD (b : Bool) : ∀ n, SchemaOKF n (Schema.sBool (some (.vBool b))) :=
  schemaOKF_of_scalar _ rfl (fun _ d h => by injection h with h1; subst h1; rfl)

theorem okfVersion1 : ∀ n, SchemaOKF n (Schema.sNum false (some 1) false (some (.vNum 1))) :=
  schemaOKF_of_scalar _ rfl (fun _ d h => by injection h with h1; subst h1; rfl)

theorem okfVersion2 : ∀ n, SchemaOKF n (Schema.sNum false (some 2) false (some (.vNum 2))) :=
  schemaOKF_of_scalar _ rfl (fun _ d h => by injection h with h1; subst h1; rfl)

theorem okfTheme : ∀ n,
    SchemaOKF n (Schema.sAny [.vStr "", .vStr "light", .vStr "dark"] (some (.vStr "light"))) :=
  schemaOKF_of_scalar _ rfl (fun _ d h => by injection h with h1; subst h1; rfl)

theorem okfFlash : ∀ n, SchemaOKF n (Schema.sAny [.vNum 0, .vNum 2] (some (.vNum 0))) :=
  schemaOKF_of_scalar _ rfl (fun _ d h => by injection h with h1; subst h1; rfl)

theorem okfBounce : ∀ n,
    SchemaOKF n (Schema.sAny [.vStr "", .vStr "informational", .vStr "critical"]
      (some (.vStr "informational"))) :=
  schemaOKF_of_scalar _ rfl (fun _ d h => by injection h with h1; subst h1; rfl)

theorem okfLocale : ∀ n, SchemaOKF n (Schema.sStr .locale false false (some (.vStr "en-US"))) :=
  schemaOKF_of_scalar _ rfl (fun _ d h => by injection h with h1; subst h1; rfl)

theorem okfArrEmptyDflt (item : Schema) (hitem : ∀ n, SchemaOKF n item) :
    ∀ n, SchemaOKF n (Schema.sArr item (some (.vArr [])))
  | 0 => trivial
  | n + 1 =>
      ⟨fun d h => by injection h with h1; subst h1; rfl, hitem n⟩

theorem okfTab : ∀ n, SchemaOKF n tabSchemaV3
  | 0 => trivial
  | n + 1 => by
      refine ⟨fun d h => by simp [tabSchemaV3, Schema.dflt] at h, by decide, ?_⟩
      intro k s' hm
      simp [tabSchemaV3] at hm
      rcases hm with ⟨rfl, rfl⟩ | ⟨rfl, rfl⟩ | ⟨rfl, rfl⟩
      · exact okfStrReq n
      · exact okfOrder n
      · exact okfBoolD false n

theorem okfTeamV1 : ∀ n, SchemaOKF n teamSchemaV1
  | 0 => trivial
  | n + 1 => by
      refine ⟨fun d h => by simp [teamSchemaV1, Schema.dflt] at h, by decide, ?_⟩
      intro k s' hm
      simp [teamSchemaV1] at hm
      rcases hm with ⟨rfl, rfl⟩ | ⟨rfl, rfl⟩
      · exact okfStrReq n
      · exact okfStrReq n

theorem okfTeamV2 : ∀ n, SchemaOKF n teamSchemaV2
  | 0 => trivial
  | n + 1 => by
      refine ⟨fun d h => by simp [teamSchemaV2, Schema.dflt] at h, by decide, ?_⟩
      intro k s' hm
      simp [teamSchemaV2] at hm
      rcases hm with ⟨rfl, rfl⟩ | ⟨rfl, rfl⟩ | ⟨rfl, rfl⟩
      · exact okfStrReq n
      · exact okfStrReq n
      · exact okfOrder n

theorem okfTeamV3 : ∀ n, SchemaOKF n teamSchemaV3
  | 0 => trivial
  | n + 1 => by
      refine ⟨fun d h => by simp [teamSchemaV3, Schema.dflt] at h, by decide, ?_⟩
      intro k s' hm
      simp [teamSchemaV3] at hm
      rcases hm with ⟨rfl, rfl⟩ | ⟨rfl, rfl⟩ | ⟨rfl, rfl⟩ | ⟨rfl, rfl⟩ | ⟨rfl, rfl⟩
      · exact okfStrReq n
      · exact okfStrReq n
      · exact okfOrder n
      · exact okfNumZeroDflt n
      · exact okfArrEmptyDflt tabSchemaV3 okfTab n

theorem okfNotifications : ∀ n, SchemaOKF n notificationsSchema
  | 0 => trivial
  | n + 1 => by
      refine ⟨fun d h => by simp [notificationsSchema, Schema.dflt] at h, by decide, ?_⟩
      intro k s' hm
      simp [notificationsSchema] at hm
      rcases hm with ⟨rfl, rfl⟩ | ⟨rfl, rfl⟩ | ⟨rfl, rfl⟩
      · exact okfFlash n
      · exact okfBoolD false n
      · exact okfBounce n

theorem okfConfigV1 : ∀ n, SchemaOKF n configDataSchemaV1
  | 0 => trivial
  | n + 1 => by
      refine ⟨fun d h => by simp [configDataSchemaV1, Schema.dflt] at h, by decide, ?_⟩
      intro k s' hm
      simp [configDataSchemaV1] at hm
      rcases hm with ⟨rfl, rfl⟩ | hm
      · exact okfVersion1 n
      rcases hm with ⟨rfl, rfl⟩ | hm
      · exact okfArrEmptyDflt teamSchemaV1 okfTeamV1 n
      rcases hm with ⟨rfl, rfl⟩ | hm
      · exact okfBoolD false n
      rcases hm with ⟨rfl, rfl⟩ | hm
      · exact okfTheme n
      rcases hm with ⟨rfl, rfl⟩ | hm
      · exact okfBoolD false n
      rcases hm with ⟨rfl, rfl⟩ | hm
      · exact okfNotifications n
      rcases hm with ⟨rfl, rfl⟩ | hm
      · exact okfBoolD true n
      rcases hm with ⟨rfl, rfl⟩ | hm
      · exact okfBoolD true n
      rcases hm with ⟨rfl, rfl⟩ | hm
      · exact okfBoolD true n
      rcases hm with ⟨rfl, rfl⟩ | hm
      · exact okfBoolD true n
      rcases hm with ⟨rfl, rfl⟩
      exact okfLocale n

theorem okfConfigV2 : ∀ n, SchemaOKF n configDataSchemaV2
  | 0 => trivial
  | n + 1 => by
      refine ⟨fun d h => by simp [configDataSchemaV2, Schema.dflt] at h, by decide, ?_⟩
      intro k s' hm
      simp [configDataSchemaV2] at hm
      rcases hm with ⟨rfl, rfl⟩ | hm
      · exact okfVersion2 n
      rcases hm with ⟨rfl, rfl⟩ | hm
      · exact okfArrEmptyDflt teamSchemaV2 okfTeamV2 n
      rcases hm with ⟨rfl, rfl⟩ | hm
      · exact okfBoolD false n
      rcases hm with ⟨rfl, rfl⟩ | hm
      · exact okfTheme n
      rcases hm with ⟨rfl, rfl⟩ | hm
      · exact okfBoolD false n
      rcases hm with ⟨rfl, rfl⟩ | hm
      · exact okfNotifications n
      rcases hm with ⟨rfl, rfl⟩ | hm
      · exact okfBoolD true n
      rcases hm with ⟨rfl, rfl⟩ | hm
      · exact okfBoolD true n
      rcases hm with ⟨rfl, rfl⟩ | hm
      · exact okfBoolD true n
      rcases hm with ⟨rfl, rfl⟩ | hm
      · exact okfBoolD true n
      rcases hm with ⟨rfl, rfl⟩ | hm
      · exact okfLocale n
      rcases hm with ⟨rfl, rfl⟩ | hm
      · exact okfStrNull n
      rcases hm with ⟨rfl, rfl⟩ | hm
      · exact okfBoolD false n
      rcases hm with ⟨rfl, rfl⟩
      exact okfStrOpt n

theorem okfConfigV3 : ∀ n, SchemaOKF n configDataSchemaV3
  | 0 => trivial
  | n + 1 => by
      refine ⟨fun d h => by simp [configDataSchemaV3, Schema.dflt] at h, by decide, ?_⟩
      intro k s' hm
      simp [configDataSchemaV3] at hm
      rcases hm with ⟨rfl, rfl⟩ | hm
      · exact okfVersion2 n
      rcases hm with ⟨rfl, rfl⟩ | hm
      · exact okfArrEmptyDflt teamSchemaV3 okfTeamV3 n
      rcases hm with ⟨rfl, rfl⟩ | hm
      · exact okfBoolD false n
      rcases hm with ⟨rfl, rfl⟩ | hm
      · exact okfTheme n
      rcases hm with ⟨rfl, rfl⟩ | hm
      · exact okfBoolD false n
      rcases hm with ⟨rfl, rfl⟩ | hm
      · exact okfNotifications n
      rcases hm with ⟨rfl, rfl⟩ | hm
      · exact okfBoolD true n
      rcases hm with ⟨rfl, rfl⟩ | hm
      · exact okfBoolD true n
      rcases hm with ⟨rfl, rfl⟩ | hm
      · exact okfBoolD true n
      rcases hm with ⟨rfl, rfl⟩ | hm
      · exact okfBoolD true n
      rcases hm with ⟨rfl, rfl⟩ | hm
      · exact okfLocale n
      rcases hm with ⟨rfl, rfl⟩ | hm
      · exact okfStrNull n
      rcases hm with ⟨rfl, rfl⟩ | hm
      · exact okfBoolD false n
      rcases hm with ⟨rfl, rfl⟩ | hm
      · exact okfStrOpt n
      rcases hm with ⟨rfl, rfl⟩
      exact okfNumZeroDflt n

/-! ### One-step unfolding lemmas (the fuel stays symbolic so that terms such
as `runKeys (validateFieldF n)` are never unfolded further) -/

theorem validateFieldF_absent (n : Nat) (s : Schema) :
    validateFieldF (n + 1) s none = if s.required then none else some s.dflt := rfl

theorem validateFieldF_obj (n : Nat) (keys : List (String × Schema))
    (fs : List (String × Value)) :
    validateFieldF (n + 1) (.sObj keys) (some (.vObj fs)) =
      ((runKeys (validateFieldF n) keys fs).map Value.vObj).map some := rfl

theorem validateFieldF_pattern (n : Nat) (kc : StrCheck) (val : Schema)
    (fs : List (String × Value)) :
    validateFieldF (n + 1) (.sPattern kc val) (some (.vObj fs)) =
      ((runPattern (validateFieldF n) kc val fs).map Value.vObj).map some := rfl

theorem validateFieldF_arr (n : Nat) (item : Schema) (d : Option Value) (xs : List Value) :
    validateFieldF (n + 1) (.sArr item d) (some (.vArr xs)) =
      ((runItems (validateFieldF n) item xs).map Value.vArr).map some := rfl

theorem validateFieldF_num (n : Nat) (isInt : Bool) (minv : Option Rat) (req : Bool)
    (d : Option Value) (q : Rat) :
    validateFieldF (n + 1) (.sNum isInt minv req d) (some (.vNum q)) =
      (validateBase (validateFieldF n) (.sNum isInt minv req d) (.vNum q)).map some := rfl

theorem joiFuel_eq : joiFuel = 12 := rfl

/-! ### Top-level characterizations of `validateAgainstSchema` -/

theorem validateAgainstSchema_obj (keys : List (String × Schema)) (fs : List (String × Value)) :
    validateAgainstSchema (.vObj fs) (.sObj keys) =
      (runKeys (validateFieldF 11) keys fs).map Value.vObj := by
  have h1 : validateAgainstSchema (.vObj fs) (.sObj keys) =
      (match validateFieldF joiFuel (.sObj keys) (some (.vObj fs)) with
       | some (some w) => some w
       | _ => none) := rfl
  rw [h1, joiFuel_eq, show (12 : Nat) = 11 + 1 from rfl, validateFieldF_obj 11 keys fs]
  cases runKeys (validateFieldF 11) keys fs <;> rfl

theorem validateAgainstSchema_pattern (kc : StrCheck) (val : Schema)
    (fs : List (String × Value)) :
    validateAgainstSchema (.vObj fs) (.sPattern kc val) =
      (runPattern (validateFieldF 11) kc val fs).map Value.vObj := by
  have h1 : validateAgainstSchema (.vObj fs) (.sPattern kc val) =
      (match validateFieldF joiFuel (.sPattern kc val) (some (.vObj fs)) with
       | some (some w) => some w
       | _ => none) := rfl
  rw [h1, joiFuel_eq, show (12 : Nat) = 11 + 1 from rfl, validateFieldF_pattern 11 kc val fs]
  cases runPattern (validateFieldF 11) kc val fs <;> rfl

/-! ### C2 -/

/-- C2: `cleanURL` lowercases and slash-normalizes exactly the strings that
contain a backslash, and passes every other string through unchanged; in
particular `cleanURL "HTTPS://Foo.COM\bar" = "https://foo.com/bar"` while
`cleanURL "https://Foo.com/bar"` is returned unchanged (not lowercased). -/
theorem claim2_cleanURL (url : String) :
    (url.toList.contains '\\' = true →
      cleanURL url = String.mk (url.toList.map cleanChar)) ∧
    (url.toList.contains '\\' = false → cleanURL url = url) ∧
    cleanURL "HTTPS://Foo.COM\\bar" = "https://foo.com/bar" ∧
    cleanURL "https://Foo.com/bar" = "https://Foo.com/bar" := by
  refine ⟨fun h => ?_, fun h => ?_, by decide, by decide⟩
  · unfold cleanURL
    rw [if_pos h]
  · unfold cleanURL
    have hcond : ¬(url.toList.contains '\\' = true) := by
      rw [h]
      simp
    rw [if_neg hcond]

/-- Witness for C2 at concrete inputs. -/
theorem claim2_cleanURL_witness :
    cleanURL "A\\b" = String.mk ("A\\b".toList.map cleanChar) ∧
    cleanURL "Abc" = "Abc" :=
  ⟨(claim2_cleanURL "A\\b").1 (by decide),
   (claim2_cleanURL "Abc").2.1 (by decide)⟩

/-! ### C8 -/

/-- C8: `validateArgs {}` succeeds with the empty normalized record (every
Args field is optional with no default), and any non-object input — a string
such as "not an object", a number, a boolean — is rejected with `null`. -/
theorem claim8_validateArgs :
    validateArgs (.vObj []) = some (.vObj []) ∧
    validateArgs (.vStr "not an object") = none ∧
    (∀ s, validateArgs (.vStr s) = none) ∧
    (∀ q, validateArgs (.vNum q) = none) ∧
    (∀ b, validateArgs (.vBool b) = none) :=
  ⟨rfl, rfl, fun _ => rfl, fun _ => rfl, fun _ => rfl⟩

/-- A single failing declared field makes object validation return null. -/
theorem validateAgainstSchema_obj_noneF (keys : List (String × Schema))
    (fs : List (String × Value)) (k : String) (s : Schema)
    (hm : (k, s) ∈ keys) (hf : validateFieldF 11 s (lookupKey fs k) = none) :
    validateAgainstSchema (.vObj fs) (.sObj keys) = none := by
  rw [validateAgainstSchema_obj, runKeys_none_of_field (validateFieldF 11) keys fs k s hm hf]
  rfl

/-! ### C3 -/

/-- C3: a present `width` below 400 or a present `height` below 240 makes
`validateBoundsInfo` reject the whole record (null) — the value is neither
clamped nor replaced by the default; in particular
`validateBoundsInfo {width: 100, height: 100} = null`. -/
theorem claim3_boundsMin (fs : List (String × Value)) :
    (∀ w : Rat, lookupKey fs "width" = some (.vNum w) → w < minWindowWidth →
      validateBoundsInfo (.vObj fs) = none) ∧
    (∀ h : Rat, lookupKey fs "height" = some (.vNum h) → h < minWindowHeight →
      validateBoundsInfo (.vObj fs) = none) ∧
    validateBoundsInfo (.vObj [("width", .vNum 100), ("height", .vNum 100)]) = none := by
  refine ⟨?_, ?_, rfl⟩
  · intro w hlk hlt
    have hfield : validateFieldF 11
        (Schema.sNum true (some minWindowWidth) true (some (.vNum defaultWindowWidth)))
        (lookupKey fs "width") = none := by
      rw [hlk, show (11 : Nat) = 10 + 1 from rfl, validateFieldF_num]
      by_cases hden : w.den = 1
      · simp [validateBase, hden, hlt]
      · simp [validateBase, hden]
    exact validateAgainstSchema_obj_noneF _ fs "width" _
      (List.mem_cons_of_mem _ (List.mem_cons_of_mem _ (List.mem_cons_self _ _))) hfield
  · intro h hlk hlt
    have hfield : validateFieldF 11
        (Schema.sNum true (some minWindowHeight) true (some (.vNum defaultWindowHeight)))
        (lookupKey fs "height") = none := by
      rw [hlk, show (11 : Nat) = 10 + 1 from rfl, validateFieldF_num]
      by_cases hden : h.den = 1
      · simp [validateBase, hden, hlt]
      · simp [validateBase, hden]
    exact validateAgainstSchema_obj_noneF _ fs "height" _
      (List.mem_cons_of_mem _ (List.mem_cons_of_mem _ (List.mem_cons_of_mem _
        (List.mem_cons_self _ _)))) hfield

/-- Witness for C3 at concrete inputs. -/
theorem claim3_boundsMin_witness :
    validateBoundsInfo (.vObj [("width", .vNum 100), ("height", .vNum 700)]) = none ∧
    validateBoundsInfo (.vObj [("width", .vNum 1000), ("height", .vNum 100)]) = none :=
  ⟨(claim3_boundsMin [("width", .vNum 100), ("height", .vNum 700)]).1 100 rfl (by decide),
   (claim3_boundsMin [("width", .vNum 1000), ("height", .vNum 100)]).2.1 100 rfl (by decide)⟩

/-! ### Sanitization lemmas -/

/-- A successful teams sanitization returns an object and only ever touches
the `teams` key. -/
theorem sanitizeTeams_ok_obj (clean : Value → Except Unit Value)
    (fs : List (String × Value)) (d : Value)
    (h : sanitizeTeams clean (.vObj fs) = .ok d) :
    ∃ fs', d = .vObj fs' ∧ (∀ k, k ≠ "teams" → lookupKey fs' k = lookupKey fs k) := by
  simp only [sanitizeTeams] at h
  cases hlk : lookupKey fs "teams" with
  | none =>
      rw [hlk] at h
      simp only [Except.ok.injEq] at h
      exact ⟨fs, h.symm, fun _ _ => rfl⟩
  | some tv =>
      rw [hlk] at h
      cases tv with
      | vArr ts =>
          by_cases hemp : ts.isEmpty = true
          · simp only [hemp, if_true, Except.ok.injEq] at h
            exact ⟨fs, h.symm, fun _ _ => rfl⟩
          · simp only [hemp, if_false, Bool.false_eq_true] at h
            cases hmap : mapTeams clean ts with
            | error e => rw [hmap] at h; cases h
            | ok ts' =>
                rw [hmap] at h
                simp only [Except.ok.injEq] at h
                refine ⟨setKey fs "teams" (.vArr (ts'.filter teamFilterPred)), h.symm, ?_⟩
                intro k hk
                exact lookupKey_setKey_ne fs "teams" _ k (Ne.symm hk)
      | vNull => simp only [Except.ok.injEq] at h; exact ⟨fs, h.symm, fun _ _ => rfl⟩
      | vBool b => simp only [Except.ok.injEq] at h; exact ⟨fs, h.symm, fun _ _ => rfl⟩
      | vNum q => simp only [Except.ok.injEq] at h; exact ⟨fs, h.symm, fun _ _ => rfl⟩
      | vStr s => simp only [Except.ok.injEq] at h; exact ⟨fs, h.symm, fun _ _ => rfl⟩
      | vObj fs2 => simp only [Except.ok.injEq] at h; exact ⟨fs, h.symm, fun _ _ => rfl⟩

/-- The spellchecker fix only ever touches the `spellCheckerURL` key. -/
theorem spellCheckFix_lookup_ne (fs : List (String × Value)) (k : String)
    (h : k ≠ "spellCheckerURL") :
    lookupKey (spellCheckFix fs).1 k = lookupKey fs k := by
  simp only [spellCheckFix]
  cases hlk : lookupKey fs "spellCheckerURL" with
  | none => rfl
  | some v =>
      by_cases hc : (jsTruthy v && !isValidURLV v) = true
      · simp only [hc, if_pos]
        exact lookupKey_eraseKey_ne fs "spellCheckerURL" k (Ne.symm h)
      · simp [hc]

/-- Generalized form of `validateAgainstSchema_obj_noneF` taking the schema
equation as a hypothesis (so named schemas unify by `rfl`). -/
theorem validateAgainstSchema_noneF (S : Schema) (keys : List (String × Schema))
    (hS : S = .sObj keys) (fs : List (String × Value)) (k : String) (s : Schema)
    (hm : (k, s) ∈ keys) (hf : validateFieldF 11 s (lookupKey fs k) = none) :
    validateAgainstSchema (.vObj fs) S = none := by
  subst hS
  exact validateAgainstSchema_obj_noneF keys fs k s hm hf

/-- Inversion: a successful object validation comes from a successful
`runKeys`. -/
theorem validateAgainstSchema_inv (S : Schema) (keys : List (String × Schema))
    (hS : S = .sObj keys) (fs out : List (String × Value))
    (h : validateAgainstSchema (.vObj fs) S = some (.vObj out)) :
    runKeys (validateFieldF 11) keys fs = some out := by
  subst hS
  rw [validateAgainstSchema_obj] at h
  rcases Option.map_eq_some'.mp h with ⟨out', h1, h2⟩
  injection h2 with h3
  exact h3 ▸ h1

/-- A successful object validation always returns an object. -/
theorem validateAgainstSchema_shape (S : Schema) (keys : List (String × Schema))
    (hS : S = .sObj keys) (fs : List (String × Value)) (out : Value)
    (h : validateAgainstSchema (.vObj fs) S = some out) :
    ∃ l, out = .vObj l := by
  subst hS
  rw [validateAgainstSchema_obj] at h
  rcases Option.map_eq_some'.mp h with ⟨l, _, h2⟩
  exact ⟨l, h2.symm⟩

/-! ### C7 -/

/-- Counterexample to C7 as stated: on the empty record `validateBoundsInfo`
returns null — `width`/`height` are `required()` and in Joi a required key
that is absent is an error (its declared default is not applied), so no
"fully defaulted record" is produced. -/
theorem claim7_bounds_counterexample : validateBoundsInfo (.vObj []) = none := rfl

/-- C7 amended: `width` and `height` are required, so *every* record missing
either is rejected (null) rather than defaulted — in particular
`validateBoundsInfo {}` is null, and the declared defaults 1000/700 are never
applied to an absent required key.  Whenever validation does return a record,
each optional field that was absent from the input is filled with its
declared default — `x` and `y` with 0, `maximized` and `fullscreen` with
false; with integral `width ≥ 400` and `height ≥ 240` present and every
optional absent, the fully defaulted record is returned. -/
theorem claim7_bounds_amended (fs : List (String × Value)) :
    (lookupKey fs "width" = none → validateBoundsInfo (.vObj fs) = none) ∧
    (lookupKey fs "height" = none → validateBoundsInfo (.vObj fs) = none) ∧
    (∀ out, validateBoundsInfo (.vObj fs) = some (.vObj out) →
      (lookupKey fs "x" = none → lookupKey out "x" = some (.vNum 0)) ∧
      (lookupKey fs "y" = none → lookupKey out "y" = some (.vNum 0)) ∧
      (lookupKey fs "maximized" = none → lookupKey out "maximized" = some (.vBool false)) ∧
      (lookupKey fs "fullscreen" = none →
        lookupKey out "fullscreen" = some (.vBool false))) ∧
    (∀ w h : Rat, lookupKey fs "width" = some (.vNum w) → w.den = 1 →
      minWindowWidth ≤ w →
      lookupKey fs "height" = some (.vNum h) → h.den = 1 → minWindowHeight ≤ h →
      lookupKey fs "x" = none → lookupKey fs "y" = none →
      lookupKey fs "maximized" = none → lookupKey fs "fullscreen" = none →
      validateBoundsInfo (.vObj fs) =
        some (.vObj [("x", .vNum 0), ("y", .vNum 0), ("width", .vNum w),
          ("height", .vNum h), ("maximized", .vBool false),
          ("fullscreen", .vBool false)])) := by
  refine ⟨?_, ?_, ?_, ?_⟩
  · intro habs
    exact validateAgainstSchema_noneF boundsInfoSchema _ rfl fs "width" _
      (by repeat first | exact List.mem_cons_self _ _ | apply List.mem_cons_of_mem)
      (by rw [habs]; rfl)
  · intro habs
    exact validateAgainstSchema_noneF boundsInfoSchema _ rfl fs "height" _
      (by repeat first | exact List.mem_cons_self _ _ | apply List.mem_cons_of_mem)
      (by rw [habs]; rfl)
  · intro out hok
    have hrun := validateAgainstSchema_inv boundsInfoSchema _ rfl fs out hok
    refine ⟨?_, ?_, ?_, ?_⟩
    · intro habs
      have hx := runKeys_lookupKey (validateFieldF 11) _ fs out (by decide) hrun "x"
        (Schema.sNum true none false (some (.vNum 0))) (List.mem_cons_self _ _)
      rw [habs] at hx
      have h2 : (some (some (Value.vNum 0)) : Option (Option Value)) =
        some (lookupKey out "x") := hx
      injection h2 with h3
      exact h3.symm
    · intro habs
      have hy := runKeys_lookupKey (validateFieldF 11) _ fs out (by decide) hrun "y"
        (Schema.sNum true none false (some (.vNum 0)))
        (by repeat first | exact List.mem_cons_self _ _ | apply List.mem_cons_of_mem)
      rw [habs] at hy
      have h2 : (some (some (Value.vNum 0)) : Option (Option Value)) =
        some (lookupKey out "y") := hy
      injection h2 with h3
      exact h3.symm
    · intro habs
      have hm := runKeys_lookupKey (validateFieldF 11) _ fs out (by decide) hrun
        "maximized" (Schema.sBool (some (.vBool false)))
        (by repeat first | exact List.mem_cons_self _ _ | apply List.mem_cons_of_mem)
      rw [habs] at hm
      have h2 : (some (some (Value.vBool false)) : Option (Option Value)) =
        some (lookupKey out "maximized") := hm
      injection h2 with h3
      exact h3.symm
    · intro habs
      have hf := runKeys_lookupKey (validateFieldF 11) _ fs out (by decide) hrun
        "fullscreen" (Schema.sBool (some (.vBool false)))
        (by repeat first | exact List.mem_cons_self _ _ | apply List.mem_cons_of_mem)
      rw [habs] at hf
      have h2 : (some (some (Value.vBool false)) : Option (Option Value)) =
        some (lookupKey out "fullscreen") := hf
      injection h2 with h3
      exact h3.symm
  · intro w h hw hwd hwm hh hhd hhm hx hy hmax hful
    have hx1 : validateFieldF 11 (Schema.sNum true none false (some (.vNum 0)))
        (lookupKey fs "x") = some (some (.vNum 0)) := by rw [hx]; rfl
    have hy1 : validateFieldF 11 (Schema.sNum true none false (some (.vNum 0)))
        (lookupKey fs "y") = some (some (.vNum 0)) := by rw [hy]; rfl
    have hw1 : validateFieldF 11
        (Schema.sNum true (some minWindowWidth) true (some (.vNum defaultWindowWidth)))
        (lookupKey fs "width") = some (some (.vNum w)) := by
      rw [hw, show (11 : Nat) = 10 + 1 from rfl, validateFieldF_num]
      simp [validateBase, hwd, not_lt.mpr hwm]
    have hh1 : validateFieldF 11
        (Schema.sNum true (some minWindowHeight) true (some (.vNum defaultWindowHeight)))
        (lookupKey fs "height") = some (some (.vNum h)) := by
      rw [hh, show (11 : Nat) = 10 + 1 from rfl, validateFieldF_num]
      simp [validateBase, hhd, not_lt.mpr hhm]
    have hm1 : validateFieldF 11 (Schema.sBool (some (.vBool false)))
        (lookupKey fs "maximized") = some (some (.vBool false)) := by rw [hmax]; rfl
    have hf1 : validateFieldF 11 (Schema.sBool (some (.vBool false)))
        (lookupKey fs "fullscreen") = some (some (.vBool false)) := by rw [hful]; rfl
    show validateAgainstSchema (.vObj fs) (.sObj _) = _
    rw [validateAgainstSchema_obj]
    simp only [runKeys, hx1, hy1, hw1, hh1, hm1, hf1, Option.map_some']

/-- Witness for the amended C7: width absent (with height present) rejects,
height absent rejects, a successful run with `x` present and the other
optionals absent fills in `y`, `maximized` and `fullscreen`, and the
minimal record normalizes to the fully defaulted one. -/
theorem claim7_bounds_amended_witness :
    validateBoundsInfo (.vObj [("height", .vNum 300)]) = none ∧
    validateBoundsInfo (.vObj [("width", .vNum 500)]) = none ∧
    lookupKey [("x", .vNum 7), ("y", .vNum 0), ("width", .vNum 500),
      ("height", .vNum 300), ("maximized", .vBool false),
      ("fullscreen", .vBool false)] "y" = some (.vNum 0) ∧
    validateBoundsInfo (.vObj [("width", .vNum 500), ("height", .vNum 300)]) =
      some (.vObj [("x", .vNum 0), ("y", .vNum 0), ("width", .vNum 500),
        ("height", .vNum 300), ("maximized", .vBool false),
        ("fullscreen", .vBool false)]) :=
  ⟨(claim7_bounds_amended [("height", .vNum 300)]).1 rfl,
   (claim7_bounds_amended [("width", .vNum 500)]).2.1 rfl,
   ((claim7_bounds_amended
      [("width", .vNum 500), ("height", .vNum 300), ("x", .vNum 7)]).2.2.1
      [("x", .vNum 7), ("y", .vNum 0), ("width", .vNum 500), ("height", .vNum 300),
        ("maximized", .vBool false), ("fullscreen", .vBool false)] rfl).2.1 rfl,
   (claim7_bounds_amended [("width", .vNum 500), ("height", .vNum 300)]).2.2.2
     500 300 rfl rfl (by decide) rfl rfl (by decide) rfl rfl rfl rfl⟩

/-! ### C10 -/

/-- C10: the V3 schema's `version` has minimum 2 and default 2 — a present
version below 2 rejects the record, a present version ≥ 2 is preserved, and
an absent version is defaulted to 2 (not 3) in the normalized output. -/
theorem claim10_v3_version (fs : List (String × Value)) :
    (∀ v : Rat, lookupKey fs "version" = some (.vNum v) → v < 2 →
      ∀ out, validateV3ConfigData (.vObj fs) ≠ .ok (some out)) ∧
    (lookupKey fs "version" = none →
      ∀ out, validateV3ConfigData (.vObj fs) = .ok (some (.vObj out)) →
        lookupKey out "version" = some (.vNum 2)) ∧
    (∀ v : Rat, lookupKey fs "version" = some (.vNum v) → 2 ≤ v →
      ∀ out, validateV3ConfigData (.vObj fs) = .ok (some (.vObj out)) →
        lookupKey out "version" = some (.vNum v)) := by
  refine ⟨?_, ?_, ?_⟩
  · intro v hlk hlt out hok
    cases hs : sanitizeTeams cleanTeamV23 (.vObj fs) with
    | error e => simp [validateV3ConfigData, hs] at hok
    | ok d =>
        rcases sanitizeTeams_ok_obj _ fs d hs with ⟨fs', rfl, hpres⟩
        simp only [validateV3ConfigData, hs] at hok
        have hver : lookupKey (spellCheckFix fs').1 "version" = some (.vNum v) := by
          rw [spellCheckFix_lookup_ne fs' "version" (by decide),
            hpres "version" (by decide), hlk]
        have hfield : validateFieldF 11 (Schema.sNum false (some 2) false (some (.vNum 2)))
            (lookupKey (spellCheckFix fs').1 "version") = none := by
          rw [hver, show (11 : Nat) = 10 + 1 from rfl, validateFieldF_num]
          simp [validateBase, hlt]
        rw [validateAgainstSchema_noneF configDataSchemaV3 _ rfl (spellCheckFix fs').1
          "version" _ (List.mem_cons_self _ _) hfield] at hok
        cases hok
  · intro hlk out hok
    cases hs : sanitizeTeams cleanTeamV23 (.vObj fs) with
    | error e => simp [validateV3ConfigData, hs] at hok
    | ok d =>
        rcases sanitizeTeams_ok_obj _ fs d hs with ⟨fs', rfl, hpres⟩
        simp only [validateV3ConfigData, hs, Except.ok.injEq] at hok
        have hrun := validateAgainstSchema_inv configDataSchemaV3 _ rfl _ out hok
        have hlkv := runKeys_lookupKey (validateFieldF 11) _ (spellCheckFix fs').1 out
          (by decide) hrun "version" _ (List.mem_cons_self _ _)
        have hver : lookupKey (spellCheckFix fs').1 "version" = none := by
          rw [spellCheckFix_lookup_ne fs' "version" (by decide),
            hpres "version" (by decide), hlk]
        rw [hver] at hlkv
        have : (some (some (.vNum 2)) : Option (Option Value)) =
            some (lookupKey out "version") := hlkv
        injection this with h1
        exact h1.symm
  · intro v hlk hge out hok
    cases hs : sanitizeTeams cleanTeamV23 (.vObj fs) with
    | error e => simp [validateV3ConfigData, hs] at hok
    | ok d =>
        rcases sanitizeTeams_ok_obj _ fs d hs with ⟨fs', rfl, hpres⟩
        simp only [validateV3ConfigData, hs, Except.ok.injEq] at hok
        have hrun := validateAgainstSchema_inv configDataSchemaV3 _ rfl _ out hok
        have hlkv := runKeys_lookupKey (validateFieldF 11) _ (spellCheckFix fs').1 out
          (by decide) hrun "version" _ (List.mem_cons_self _ _)
        have hver : lookupKey (spellCheckFix fs').1 "version" = some (.vNum v) := by
          rw [spellCheckFix_lookup_ne fs' "version" (by decide),
            hpres "version" (by decide), hlk]
        rw [hver, show (11 : Nat) = 10 + 1 from rfl, validateFieldF_num] at hlkv
        rw [show validateBase (validateFieldF 10) (Schema.sNum false (some 2) false
          (some (.vNum 2))) (.vNum v) = if v < 2 then none else some (.vNum v) from rfl]
          at hlkv
        rw [if_neg (not_lt.mpr hge)] at hlkv
        injection hlkv with h1
        exact h1.symm

/-- Witness for C10: version 1 is rejected, an absent version defaults to 2,
and version 2 is accepted and preserved. -/
theorem claim10_v3_version_witness :
    validateV3ConfigData (.vObj [("version", .vNum 1)]) ≠ .ok (some (.vObj [])) ∧
    lookupKey [("version", .vNum 2), ("teams", .vArr []), ("showTrayIcon", .vBool false),
      ("trayIconTheme", .vStr "light"), ("minimizeToTray", .vBool false),
      ("showUnreadBadge", .vBool true), ("useSpellChecker", .vBool true),
      ("enableHardwareAcceleration", .vBool true), ("autostart", .vBool true),
      ("spellCheckerLocale", .vStr "en-US"), ("darkMode", .vBool false),
      ("lastActiveTeam", .vNum 0)] "version" = some (.vNum 2) ∧
    lookupKey [("version", .vNum 2), ("teams", .vArr []), ("showTrayIcon", .vBool false),
      ("trayIconTheme", .vStr "light"), ("minimizeToTray", .vBool false),
      ("showUnreadBadge", .vBool true), ("useSpellChecker", .vBool true),
      ("enableHardwareAcceleration", .vBool true), ("autostart", .vBool true),
      ("spellCheckerLocale", .vStr "en-US"), ("darkMode", .vBool false),
      ("lastActiveTeam", .vNum 0)] "version" = some (.vNum 2) :=
  ⟨(claim10_v3_version [("version", .vNum 1)]).1 1 rfl (by decide) (.vObj []),
   (claim10_v3_version []).2.1 rfl _ rfl,
   (claim10_v3_version [("version", .vNum 2)]).2.2 2 rfl (by decide) _ rfl⟩

theorem spellCheckFix_absent (g : List (String × Value))
    (h : lookupKey g "spellCheckerURL" = none) : (spellCheckFix g).1 = g := by
  simp [spellCheckFix, h]

theorem spellCheckFix_deletes (g : List (String × Value)) (u : String)
    (h : lookupKey g "spellCheckerURL" = some (.vStr u)) (hne : u ≠ "")
    (hbad : isValidURL u = false) :
    (spellCheckFix g).1 = eraseKey g "spellCheckerURL" ∧ (spellCheckFix g).2 = true := by
  constructor <;> simp [spellCheckFix, h, jsTruthy, isValidURLV, hbad, hne]

/-- Teams sanitization commutes with deleting the `spellCheckerURL` key. -/
theorem sanitizeTeams_eraseSpell (clean : Value → Except Unit Value)
    (fs : List (String × Value)) :
    sanitizeTeams clean (.vObj (eraseKey fs "spellCheckerURL")) =
      (match sanitizeTeams clean (.vObj fs) with
       | .error e => .error e
       | .ok (.vObj g) => .ok (.vObj (eraseKey g "spellCheckerURL"))
       | .ok d => .ok d) := by
  have hlk : lookupKey (eraseKey fs "spellCheckerURL") "teams" =
      lookupKey fs "teams" := lookupKey_eraseKey_ne fs _ _ (by decide)
  simp only [sanitizeTeams, hlk]
  cases hl : lookupKey fs "teams" with
  | none => rfl
  | some tv =>
      cases tv with
      | vArr ts =>
          by_cases hemp : ts.isEmpty = true
          · simp [hemp]
          · simp only [hemp, if_false, Bool.false_eq_true]
            cases hmap : mapTeams clean ts with
            | error e => rfl
            | ok ts' =>
                simp only [Except.ok.injEq, Value.vObj.injEq]
                exact (setKey_filter (fun x => decide (x ≠ "spellCheckerURL")) "teams"
                  (by decide) fs (.vArr (ts'.filter teamFilterPred)))
      | vNull => rfl
      | vBool b => rfl
      | vNum q => rfl
      | vStr s => rfl
      | vObj g => rfl

/-! ### C5 -/

/-- Counterexample to C5 as stated.  `spellCheckerURL` equal to the empty
string is present and not a syntactically valid URL, yet the
`data.spellCheckerURL && ...` guard is falsy on it, so the field is not
removed; the empty string then violates the string schema and the whole
record is rejected — contradicting "the record as a whole still validates".
Similarly a `null` value is present and not a valid URL, but is kept (via
`allow(null)`) in the normalized output rather than being absent. -/
theorem claim5_spell_counterexample :
    isValidURL "" = false ∧
    validateV2ConfigData (.vObj [("spellCheckerURL", .vStr "")]) = .ok none ∧
    isValidURLV .vNull = false ∧
    validateV2ConfigData (.vObj [("spellCheckerURL", .vNull)]) =
      .ok (some (.vObj [("version", .vNum 2), ("teams", .vArr []),
        ("showTrayIcon", .vBool false), ("trayIconTheme", .vStr "light"),
        ("minimizeToTray", .vBool false), ("showUnreadBadge", .vBool true),
        ("useSpellChecker", .vBool true), ("enableHardwareAcceleration", .vBool true),
        ("autostart", .vBool true), ("spellCheckerLocale", .vStr "en-US"),
        ("spellCheckerURL", .vNull), ("darkMode", .vBool false)])) :=
  ⟨rfl, rfl, rfl, rfl⟩

/-- C5 amended: when `spellCheckerURL` is present, *truthy* (a nonempty
string) and not a syntactically valid URL, the deletion-plus-diagnostic
branch fires, the field is absent from any normalized output of
`validateV2ConfigData`/`validateV3ConfigData`, and the record's overall
result is exactly that of the same record without the field (so the bad
spellchecker URL never by itself rejects the record).  (As the
counterexample shows, the original claim fails for the present-but-falsy
values `""` — whole record rejected — and `null` — field kept.) -/
theorem claim5_spell_amended (fs : List (String × Value)) (u : String)
    (hlk : lookupKey fs "spellCheckerURL" = some (.vStr u))
    (hne : u ≠ "") (hbad : isValidURL u = false) :
    (spellCheckFix fs).2 = true ∧
    (∀ out, validateV2ConfigData (.vObj fs) = .ok (some (.vObj out)) →
      lookupKey out "spellCheckerURL" = none) ∧
    (∀ out, validateV3ConfigData (.vObj fs) = .ok (some (.vObj out)) →
      lookupKey out "spellCheckerURL" = none) ∧
    validateV2ConfigData (.vObj fs) =
      validateV2ConfigData (.vObj (eraseKey fs "spellCheckerURL")) ∧
    validateV3ConfigData (.vObj fs) =
      validateV3ConfigData (.vObj (eraseKey fs "spellCheckerURL")) := by
  refine ⟨(spellCheckFix_deletes fs u hlk hne hbad).2, ?_, ?_, ?_, ?_⟩
  · intro out hok
    cases hs : sanitizeTeams cleanTeamV23 (.vObj fs) with
    | error e => simp [validateV2ConfigData, hs] at hok
    | ok d =>
        rcases sanitizeTeams_ok_obj _ fs d hs with ⟨g, rfl, hpres⟩
        simp only [validateV2ConfigData, hs, Except.ok.injEq] at hok
        have hg : lookupKey g "spellCheckerURL" = some (.vStr u) := by
          rw [hpres _ (by decide), hlk]
        rw [(spellCheckFix_deletes g u hg hne hbad).1] at hok
        have hrun := validateAgainstSchema_inv configDataSchemaV2 _ rfl _ out hok
        have hlkv := runKeys_lookupKey (validateFieldF 11) _ _ out (by decide) hrun
          "spellCheckerURL" (Schema.sStr .free true false none) (by simp)
        rw [lookupKey_eraseKey_self g "spellCheckerURL"] at hlkv
        have h2 : (some (none : Option Value) : Option (Option Value)) =
            some (lookupKey out "spellCheckerURL") := hlkv
        injection h2 with h3
        exact h3.symm
  · intro out hok
    cases hs : sanitizeTeams cleanTeamV23 (.vObj fs) with
    | error e => simp [validateV3ConfigData, hs] at hok
    | ok d =>
        rcases sanitizeTeams_ok_obj _ fs d hs with ⟨g, rfl, hpres⟩
        simp only [validateV3ConfigData, hs, Except.ok.injEq] at hok
        have hg : lookupKey g "spellCheckerURL" = some (.vStr u) := by
          rw [hpres _ (by decide), hlk]
        rw [(spellCheckFix_deletes g u hg hne hbad).1] at hok
        have hrun := validateAgainstSchema_inv configDataSchemaV3 _ rfl _ out hok
        have hlkv := runKeys_lookupKey (validateFieldF 11) _ _ out (by decide) hrun
          "spellCheckerURL" (Schema.sStr .free true false none) (by simp)
        rw [lookupKey_eraseKey_self g "spellCheckerURL"] at hlkv
        have h2 : (some (none : Option Value) : Option (Option Value)) =
            some (lookupKey out "spellCheckerURL") := hlkv
        injection h2 with h3
        exact h3.symm
  · simp only [validateV2ConfigData]
    rw [sanitizeTeams_eraseSpell]
    cases hs : sanitizeTeams cleanTeamV23 (.vObj fs) with
    | error e => rfl
    | ok d =>
        rcases sanitizeTeams_ok_obj _ fs d hs with ⟨g, rfl, hpres⟩
        have hg : lookupKey g "spellCheckerURL" = some (.vStr u) := by
          rw [hpres _ (by decide), hlk]
        simp only []
        rw [(spellCheckFix_deletes g u hg hne hbad).1,
          spellCheckFix_absent _ (lookupKey_eraseKey_self g _)]
  · simp only [validateV3ConfigData]
    rw [sanitizeTeams_eraseSpell]
    cases hs : sanitizeTeams cleanTeamV23 (.vObj fs) with
    | error e => rfl
    | ok d =>
        rcases sanitizeTeams_ok_obj _ fs d hs with ⟨g, rfl, hpres⟩
        have hg : lookupKey g "spellCheckerURL" = some (.vStr u) := by
          rw [hpres _ (by decide), hlk]
        simp only []
        rw [(spellCheckFix_deletes g u hg hne hbad).1,
          spellCheckFix_absent _ (lookupKey_eraseKey_self g _)]

/-- Witness for the amended C5 at `spellCheckerURL = "not a url"`. -/
theorem claim5_spell_amended_witness :
    (spellCheckFix [("spellCheckerURL", .vStr "not a url")]).2 = true ∧
    lookupKey [("version", .vNum 2), ("teams", .vArr []),
      ("showTrayIcon", .vBool false), ("trayIconTheme", .vStr "light"),
      ("minimizeToTray", .vBool false), ("showUnreadBadge", .vBool true),
      ("useSpellChecker", .vBool true), ("enableHardwareAcceleration", .vBool true),
      ("autostart", .vBool true), ("spellCheckerLocale", .vStr "en-US"),
      ("darkMode", .vBool false)] "spellCheckerURL" = none ∧
    validateV2ConfigData (.vObj [("spellCheckerURL", .vStr "not a url")]) =
      validateV2ConfigData (.vObj (eraseKey [("spellCheckerURL", .vStr "not a url")]
        "spellCheckerURL")) :=
  ⟨(claim5_spell_amended [("spellCheckerURL", .vStr "not a url")] "not a url"
      rfl (by decide) (by decide)).1,
   (claim5_spell_amended [("spellCheckerURL", .vStr "not a url")] "not a url"
      rfl (by decide) (by decide)).2.1 _ rfl,
   (claim5_spell_amended [("spellCheckerURL", .vStr "not a url")] "not a url"
      rfl (by decide) (by decide)).2.2.2.1⟩

/-! ### C9 -/

/-- Counterexample to C9 as stated: exceptions do escape the validators.
`validateCertificateStore` applied to a string that is not valid JSON throws
(`JSON.parse` raises a `SyntaxError` that the function does not catch), the
V1–V3 team sanitizers throw a `TypeError` when a team of a non-empty
`teams` array has no string `url` (`url.includes` on `undefined`), and the
V1–V3 validators throw a `TypeError` on `null` input (`data.teams` on
`null`, which `typeof data === 'object'` lets through). -/
theorem claim9_throw_counterexample :
    validateCertificateStore (.vStr "not json") = .error () ∧
    validateTrustedOriginsStore (.vStr "not json") = .error () ∧
    validateOriginPermissions (.vStr "not json") = .error () ∧
    validateV2ConfigData (.vObj [("teams", .vArr [.vObj [("name", .vStr "a")]])]) =
      .error () ∧
    validateV1ConfigData (.vObj [("teams", .vArr [.vObj [("name", .vStr "a")]])]) =
      .error () ∧
    validateV2ConfigData .vNull = .error () :=
  ⟨rfl, rfl, rfl, rfl, rfl, rfl⟩

/-- Every element of the list maps to `.ok`, so `mapTeams` does. -/
theorem mapTeams_ok_of_forall (clean : Value → Except Unit Value) :
    ∀ (ts : List Value), (∀ t ∈ ts, ∃ w, clean t = .ok w) →
    ∃ ws, mapTeams clean ts = .ok ws
  | [], _ => ⟨[], rfl⟩
  | t :: ts, h => by
      rcases h t (List.mem_cons_self _ _) with ⟨w, hw⟩
      rcases mapTeams_ok_of_forall clean ts (fun t' ht' => h t' (List.mem_cons_of_mem _ ht'))
        with ⟨ws, hws⟩
      exact ⟨w :: ws, by simp [mapTeams, hw, hws]⟩

/-- C9 amended: `null` is the only failure signal *except* for three
exception paths that propagate to the caller: `JSON.parse` on a string input
that is not valid JSON (store validators), the team sanitizer of V1–V3 when
a non-empty `teams` array contains a team that is not an object with a
string `url`, and the V1–V3 validators on `null` input (`data.teams` on
`null`).  On every other input the validators return `.ok` (a record or
null); the remaining validators (`validateArgs`, `validateBoundsInfo`,
`validateAppState`, `validateV0ConfigData`, `validateAllowedProtocols`)
cannot throw at all. -/
theorem claim9_totality_amended (d : Value) (fs : List (String × Value)) (s : String) :
    ((∀ u, d ≠ .vStr u) →
      (∃ r, validateCertificateStore d = .ok r) ∧
      (∃ r, validateTrustedOriginsStore d = .ok r) ∧
      (∃ r, validateOriginPermissions d = .ok r)) ∧
    (∀ j, jsonParse s = some j →
      (∃ r, validateCertificateStore (.vStr s) = .ok r) ∧
      (∃ r, validateTrustedOriginsStore (.vStr s) = .ok r) ∧
      (∃ r, validateOriginPermissions (.vStr s) = .ok r)) ∧
    (jsonParse s = none →
      validateCertificateStore (.vStr s) = .error () ∧
      validateTrustedOriginsStore (.vStr s) = .error () ∧
      validateOriginPermissions (.vStr s) = .error ()) ∧
    (validateV1ConfigData .vNull = .error () ∧
     validateV2ConfigData .vNull = .error () ∧
     validateV3ConfigData .vNull = .error ()) ∧
    (d ≠ .vNull → (∀ fs', d ≠ .vObj fs') →
      (∃ r, validateV1ConfigData d = .ok r) ∧
      (∃ r, validateV2ConfigData d = .ok r) ∧
      (∃ r, validateV3ConfigData d = .ok r)) ∧
    ((∀ ts, lookupKey fs "teams" = some (.vArr ts) →
        ∀ t ∈ ts, ∃ tfs u, t = .vObj tfs ∧ lookupKey tfs "url" = some (.vStr u)) →
      (∃ r, validateV1ConfigData (.vObj fs) = .ok r) ∧
      (∃ r, validateV2ConfigData (.vObj fs) = .ok r) ∧
      (∃ r, validateV3ConfigData (.vObj fs) = .ok r)) := by
  refine ⟨?_, ?_, ?_, ⟨rfl, rfl, rfl⟩, ?_, ?_⟩
  · intro hns
    cases d with
    | vStr u => exact absurd rfl (hns u)
    | vNull => exact ⟨⟨_, rfl⟩, ⟨_, rfl⟩, ⟨_, rfl⟩⟩
    | vBool b => exact ⟨⟨_, rfl⟩, ⟨_, rfl⟩, ⟨_, rfl⟩⟩
    | vNum q => exact ⟨⟨_, rfl⟩, ⟨_, rfl⟩, ⟨_, rfl⟩⟩
    | vArr a => exact ⟨⟨_, rfl⟩, ⟨_, rfl⟩, ⟨_, rfl⟩⟩
    | vObj g => exact ⟨⟨_, rfl⟩, ⟨_, rfl⟩, ⟨_, rfl⟩⟩
  · intro j hj
    refine ⟨⟨validateAgainstSchema j certificateStoreSchema, ?_⟩,
      ⟨validateAgainstSchema j trustedOriginsSchema, ?_⟩,
      ⟨validateAgainstSchema j originPermissionsSchema, ?_⟩⟩
    · simp [validateCertificateStore, hj]
    · simp [validateTrustedOriginsStore, hj]
    · simp [validateOriginPermissions, hj]
  · intro hj
    refine ⟨?_, ?_, ?_⟩
    · simp [validateCertificateStore, hj]
    · simp [validateTrustedOriginsStore, hj]
    · simp [validateOriginPermissions, hj]
  · intro hnn hno
    cases d with
    | vNull => exact absurd rfl hnn
    | vObj g => exact absurd rfl (hno g)
    | vBool b => exact ⟨⟨_, rfl⟩, ⟨_, rfl⟩, ⟨_, rfl⟩⟩
    | vNum q => exact ⟨⟨_, rfl⟩, ⟨_, rfl⟩, ⟨_, rfl⟩⟩
    | vStr u => exact ⟨⟨_, rfl⟩, ⟨_, rfl⟩, ⟨_, rfl⟩⟩
    | vArr a => exact ⟨⟨_, rfl⟩, ⟨_, rfl⟩, ⟨_, rfl⟩⟩
  · intro hteams
    have hsan : ∀ clean : Value → Except Unit Value,
        (∀ t, (∃ tfs u, t = Value.vObj tfs ∧ lookupKey tfs "url" = some (.vStr u)) →
          ∃ w, clean t = .ok w) →
        ∃ d, sanitizeTeams clean (.vObj fs) = .ok d := by
      intro clean hclean
      simp only [sanitizeTeams]
      cases hl : lookupKey fs "teams" with
      | none => exact ⟨_, rfl⟩
      | some tv =>
          cases tv with
          | vArr ts =>
              by_cases hemp : ts.isEmpty = true
              · simp only [hemp, if_true]
                exact ⟨_, rfl⟩
              · simp only [hemp, if_false, Bool.false_eq_true]
                rcases mapTeams_ok_of_forall clean ts
                  (fun t ht => hclean t (hteams ts hl t ht)) with ⟨ws, hws⟩
                rw [hws]
                exact ⟨_, rfl⟩
          | vNull => exact ⟨_, rfl⟩
          | vBool b => exact ⟨_, rfl⟩
          | vNum q => exact ⟨_, rfl⟩
          | vStr s' => exact ⟨_, rfl⟩
          | vObj g => exact ⟨_, rfl⟩
    have hc1 : ∀ t, (∃ tfs u, t = Value.vObj tfs ∧ lookupKey tfs "url" = some (.vStr u)) →
        ∃ w, cleanTeamV1 t = .ok w := by
      rintro t ⟨tfs, u, rfl, hurl⟩
      cases hct : cleanTeamV1 (.vObj tfs) with
      | error e => simp [cleanTeamV1, hurl] at hct
      | ok w => exact ⟨w, rfl⟩
    have hc23 : ∀ t, (∃ tfs u, t = Value.vObj tfs ∧ lookupKey tfs "url" = some (.vStr u)) →
        ∃ w, cleanTeamV23 t = .ok w := by
      rintro t ⟨tfs, u, rfl, hurl⟩
      cases hct : cleanTeamV23 (.vObj tfs) with
      | error e => simp [cleanTeamV23, hurl] at hct
      | ok w => exact ⟨w, rfl⟩
    refine ⟨?_, ?_, ?_⟩
    · rcases hsan cleanTeamV1 hc1 with ⟨d, hd⟩
      refine ⟨validateAgainstSchema d configDataSchemaV1, ?_⟩
      simp [validateV1ConfigData, hd]
    · rcases hsan cleanTeamV23 hc23 with ⟨d, hd⟩
      cases hv : validateV2ConfigData (.vObj fs) with
      | error e =>
          rw [show validateV2ConfigData (.vObj fs) =
            (match sanitizeTeams cleanTeamV23 (.vObj fs) with
             | .error e => .error e
             | .ok d =>
                 match d with
                 | .vObj fs2 => .ok (validateAgainstSchema
                     (.vObj (spellCheckFix fs2).1) configDataSchemaV2)
                 | _ => .ok (validateAgainstSchema d configDataSchemaV2)) from rfl, hd] at hv
          cases d <;> cases hv
      | ok r => exact ⟨r, rfl⟩
    · rcases hsan cleanTeamV23 hc23 with ⟨d, hd⟩
      cases hv : validateV3ConfigData (.vObj fs) with
      | error e =>
          rw [show validateV3ConfigData (.vObj fs) =
            (match sanitizeTeams cleanTeamV23 (.vObj fs) with
             | .error e => .error e
             | .ok d =>
                 match d with
                 | .vObj fs2 => .ok (validateAgainstSchema
                     (.vObj (spellCheckFix fs2).1) configDataSchemaV3)
                 | _ => .ok (validateAgainstSchema d configDataSchemaV3)) from rfl, hd] at hv
          cases d <;> cases hv
      | ok r => exact ⟨r, rfl⟩

/-- Witness for the amended C9: a non-string store input, a fraction /
exponent / unicode-escape JSON string, the leading-zero syntax error, the
null `TypeError`, a non-object config input, and a well-formed teams
record. -/
theorem claim9_totality_amended_witness :
    (∃ r, validateCertificateStore (.vBool true) = .ok r) ∧
    (∃ r, validateTrustedOriginsStore (.vStr "[1.5, 1e3, \"A\\u0041\"]") = .ok r) ∧
    (validateCertificateStore (.vStr "01") = .error ()) ∧
    (validateV1ConfigData .vNull = .error ()) ∧
    (∃ r, validateV1ConfigData (.vStr "x") = .ok r) ∧
    (∃ r, validateV2ConfigData
      (.vObj [("teams", .vArr [.vObj [("name", .vStr "a"), ("url", .vStr "https://a.com")]])]) =
        .ok r) :=
  ⟨((claim9_totality_amended (.vBool true) [] "x").1 (fun u h => Value.noConfusion h)).1,
   ((claim9_totality_amended .vNull [] "[1.5, 1e3, \"A\\u0041\"]").2.1
      (.vArr [.vNum (mkRat 3 2), .vNum 1000, .vStr "AA"])
      (show jsonParse "[1.5, 1e3, \"A\\u0041\"]" =
        some (.vArr [.vNum (mkRat 3 2), .vNum 1000, .vStr "AA"]) from rfl)).2.1,
   ((claim9_totality_amended .vNull [] "01").2.2.1
      (show jsonParse "01" = none from rfl)).1,
   (claim9_totality_amended .vNull [] "x").2.2.2.1.1,
   ((claim9_totality_amended (.vStr "x") [] "x").2.2.2.2.1
      (fun h => Value.noConfusion h) (fun fs' h => Value.noConfusion h)).1,
   ((claim9_totality_amended .vNull
      [("teams", .vArr [.vObj [("name", .vStr "a"), ("url", .vStr "https://a.com")]])] "x"
      ).2.2.2.2.2 (by
        intro ts hl t ht
        injection hl with h1
        injection h1 with h2
        subst h2
        rcases List.mem_singleton.mp ht with rfl
        exact ⟨[("name", .vStr "a"), ("url", .vStr "https://a.com")], "https://a.com", rfl, rfl⟩)).2.1⟩

/-! ### Team-URL tracking lemmas (for C1) -/

/-- The `url` property of a team value, when it is an object carrying a
string `url`. -/
def teamURL (t : Value) : Option String :=
  match t with
  | .vObj tfs =>
      match lookupKey tfs "url" with
      | some (.vStr u) => some u
      | _ => none
  | _ => none

theorem teamFilterPred_eq (t : Value) :
    teamFilterPred t = (teamURL t).elim false isValidURL := by
  cases t <;> simp [teamFilterPred, teamURL]
  case vObj tfs =>
    cases hl : lookupKey tfs "url" with
    | none => simp
    | some u0 => cases u0 <;> simp

theorem map_filter_teamURL : ∀ (l : List Value),
    (l.filter teamFilterPred).map teamURL =
      (l.map teamURL).filter (fun o => o.elim false isValidURL)
  | [] => rfl
  | t :: l => by
      have ih := map_filter_teamURL l
      by_cases hp : teamFilterPred t = true
      · have hp' : (teamURL t).elim false isValidURL = true := teamFilterPred_eq t ▸ hp
        simp [List.filter_cons, hp, hp', ih]
      · have hp' : ¬((teamURL t).elim false isValidURL = true) := fun hc =>
          hp (by rw [teamFilterPred_eq]; exact hc)
        simp only [List.filter_cons, List.map_cons]
        rw [if_neg hp']
        simp only [Bool.not_eq_true] at hp
        simp [hp, ih]

theorem cleanTeamV1_url (t w : Value) (h : cleanTeamV1 t = .ok w) :
    teamURL w = (teamURL t).map cleanURL ∧ (teamURL t).isSome := by
  cases t <;> simp [cleanTeamV1] at h
  case vObj tfs =>
    cases hl : lookupKey tfs "url" with
    | none => rw [hl] at h; cases h
    | some u0 =>
        rw [hl] at h
        cases u0 with
        | vStr u =>
            simp only [Except.ok.injEq] at h
            subst h
            constructor
            · cases hn : lookupKey tfs "name" <;>
                simp [teamURL, lookupKey, hl]
            · simp [teamURL, hl]
        | vNull => cases h
        | vBool b => cases h
        | vNum q => cases h
        | vArr a => cases h
        | vObj o => cases h

theorem cleanTeamV23_url (t w : Value) (h : cleanTeamV23 t = .ok w) :
    teamURL w = (teamURL t).map cleanURL ∧ (teamURL t).isSome := by
  cases t <;> simp [cleanTeamV23] at h
  case vObj tfs =>
    cases hl : lookupKey tfs "url" with
    | none => rw [hl] at h; cases h
    | some u0 =>
        rw [hl] at h
        cases u0 with
        | vStr u =>
            simp only [Except.ok.injEq] at h
            subst h
            constructor
            · simp [teamURL, hl, lookupKey_setKey_self]
            · simp [teamURL, hl]
        | vNull => cases h
        | vBool b => cases h
        | vNum q => cases h
        | vArr a => cases h
        | vObj o => cases h

theorem mapTeams_urls (clean : Value → Except Unit Value)
    (hclean : ∀ t w, clean t = .ok w →
      teamURL w = (teamURL t).map cleanURL ∧ (teamURL t).isSome) :
    ∀ (ts ts' : List Value), mapTeams clean ts = .ok ts' →
      ts'.map teamURL = ts.map (fun t => (teamURL t).map cleanURL) ∧
      ∀ t ∈ ts, (teamURL t).isSome
  | [], ts', h => by
      simp only [mapTeams, Except.ok.injEq] at h
      subst h
      exact ⟨rfl, fun t ht => absurd ht (List.not_mem_nil t)⟩
  | t :: ts, ts', h => by
      simp only [mapTeams] at h
      cases hct : clean t with
      | error e => rw [hct] at h; cases h
      | ok w =>
          rw [hct] at h
          cases hmap : mapTeams clean ts with
          | error e => rw [hmap] at h; cases h
          | ok ws =>
              rw [hmap] at h
              simp only [Except.ok.injEq] at h
              subst h
              rcases hclean t w hct with ⟨hw, hsome⟩
              rcases mapTeams_urls clean hclean ts ws hmap with ⟨ih1, ih2⟩
              refine ⟨?_, ?_⟩
              · simp [hw, ih1]
              · intro t' ht'
                rcases List.mem_cons.mp ht' with rfl | ht''
                · exact hsome
                · exact ih2 t' ht''

/-- Inversion of the teams-sanitization step when a non-empty teams array is
present. -/
theorem sanitizeTeams_teams_inv (clean : Value → Except Unit Value)
    (fs : List (String × Value)) (ts : List Value)
    (hlk : lookupKey fs "teams" = some (.vArr ts)) (hne : ts.isEmpty = false)
    (d : Value) (h : sanitizeTeams clean (.vObj fs) = .ok d) :
    ∃ ts', mapTeams clean ts = .ok ts' ∧
      d = .vObj (setKey fs "teams" (.vArr (ts'.filter teamFilterPred))) := by
  simp only [sanitizeTeams, hlk, hne, Bool.false_eq_true, if_false] at h
  cases hmap : mapTeams clean ts with
  | error e => rw [hmap] at h; cases h
  | ok ts' =>
      rw [hmap] at h
      simp only [Except.ok.injEq] at h
      exact ⟨ts', rfl, h.symm⟩

/-- Item validation of a team object preserves its `url` property whenever
the item schema declares `url` as a plain required string (as all three team
schemas do). -/
theorem validateFieldF_team_url (n : Nat) (keys : List (String × Schema))
    (hmem : ("url", Schema.sStr .free false true none) ∈ keys)
    (hnd : (keys.map Prod.fst).Nodup) (t w : Value)
    (h : validateFieldF n (.sObj keys) (some t) = some (some w)) :
    teamURL w = teamURL t := by
  cases n with
  | zero => simp [validateFieldF] at h
  | succ n =>
      cases t with
      | vObj tfs =>
          rw [validateFieldF_obj] at h
          cases hrun : runKeys (validateFieldF n) keys tfs with
          | none => rw [hrun] at h; cases h
          | some wfs =>
              rw [hrun] at h
              simp only [Option.map_some', Option.some.injEq] at h
              subst h
              have hlkv := runKeys_lookupKey (validateFieldF n) keys tfs wfs hnd hrun
                "url" _ hmem
              cases n with
              | zero => simp [validateFieldF] at hlkv
              | succ m =>
                  cases hu : lookupKey tfs "url" with
                  | none =>
                      rw [hu] at hlkv
                      rw [show validateFieldF (m + 1)
                        (Schema.sStr .free false true none) none = none from rfl] at hlkv
                      cases hlkv
                  | some u0 =>
                      rw [hu] at hlkv
                      cases u0 with
                      | vStr u =>
                          by_cases hne : u = ""
                          · subst hne
                            rw [show validateFieldF (m + 1)
                              (Schema.sStr .free false true none)
                              (some (.vStr "")) = none from rfl] at hlkv
                            cases hlkv
                          · have : validateFieldF (m + 1)
                                (Schema.sStr .free false true none) (some (.vStr u)) =
                                some (some (.vStr u)) := by
                              simp [validateFieldF, Schema.valids, Schema.allowOnly,
                                Schema.rejectsEmptyStr, scalarEq, validateBase,
                                StrCheck.run, hne]
                            rw [this] at hlkv
                            injection hlkv with h1
                            simp [teamURL, hu, h1.symm]
                      | vNull =>
                          rw [show validateFieldF (m + 1)
                            (Schema.sStr .free false true none)
                            (some Value.vNull) = none from rfl] at hlkv
                          cases hlkv
                      | vBool b =>
                          rw [show validateFieldF (m + 1)
                            (Schema.sStr .free false true none)
                            (some (.vBool b)) = none from rfl] at hlkv
                          cases hlkv
                      | vNum q =>
                          rw [show validateFieldF (m + 1)
                            (Schema.sStr .free false true none)
                            (some (.vNum q)) = none from rfl] at hlkv
                          cases hlkv
                      | vArr a =>
                          rw [show validateFieldF (m + 1)
                            (Schema.sStr .free false true none)
                            (some (.vArr a)) = none from rfl] at hlkv
                          cases hlkv
                      | vObj o =>
                          rw [show validateFieldF (m + 1)
                            (Schema.sStr .free false true none)
                            (some (.vObj o)) = none from rfl] at hlkv
                          cases hlkv
      | vNull => rw [show validateFieldF (n + 1) (.sObj keys) (some Value.vNull) =
          none from rfl] at h; cases h
      | vBool b => rw [show validateFieldF (n + 1) (.sObj keys) (some (.vBool b)) =
          none from rfl] at h; cases h
      | vNum q => rw [show validateFieldF (n + 1) (.sObj keys) (some (.vNum q)) =
          none from rfl] at h; cases h
      | vStr s => rw [show validateFieldF (n + 1) (.sObj keys) (some (.vStr s)) =
          none from rfl] at h; cases h
      | vArr a => rw [show validateFieldF (n + 1) (.sObj keys) (some (.vArr a)) =
          none from rfl] at h; cases h

/-- Array-item validation against a team schema preserves the `url`
properties of the items, in order. -/
theorem runItems_teamURL (n : Nat) (keys : List (String × Schema))
    (hmem : ("url", Schema.sStr .free false true none) ∈ keys)
    (hnd : (keys.map Prod.fst).Nodup) :
    ∀ (xs ws : List Value), runItems (validateFieldF n) (.sObj keys) xs = some ws →
      ws.map teamURL = xs.map teamURL
  | [], ws, h => by
      simp only [runItems, Option.some.injEq] at h
      subst h
      rfl
  | x :: xs, ws, h => by
      simp only [runItems] at h
      cases hv : validateFieldF n (.sObj keys) (some x) with
      | none => rw [hv] at h; cases h
      | some res =>
          rw [hv] at h
          cases res with
          | none => cases h
          | some w =>
              rcases Option.map_eq_some'.mp h with ⟨tail, htail, hw⟩
              subst hw
              have h1 := validateFieldF_team_url n keys hmem hnd x w hv
              have ih := runItems_teamURL n keys hmem hnd xs tail htail
              simp [h1, ih]

/-- Engine part of the teams pipeline: if the engine input carries a teams
array, the normalized output carries the item-validated teams with the same
`url`s in the same order. -/
theorem teams_out_urls (cfgKeys : List (String × Schema))
    (teamKeys : List (String × Schema))
    (hmemT : ("teams", Schema.sArr (.sObj teamKeys) (some (.vArr []))) ∈ cfgKeys)
    (hnd : (cfgKeys.map Prod.fst).Nodup)
    (hmemU : ("url", Schema.sStr .free false true none) ∈ teamKeys)
    (hndT : (teamKeys.map Prod.fst).Nodup)
    (g out : List (String × Value)) (fts : List Value)
    (hg : lookupKey g "teams" = some (.vArr fts))
    (hok : validateAgainstSchema (.vObj g) (.sObj cfgKeys) = some (.vObj out)) :
    ∃ outTs, lookupKey out "teams" = some (.vArr outTs) ∧
      outTs.map teamURL = fts.map teamURL := by
  have hrun := validateAgainstSchema_inv _ _ rfl _ _ hok
  have hlkv := runKeys_lookupKey (validateFieldF 11) _ _ _ hnd hrun "teams" _ hmemT
  rw [hg, show (11 : Nat) = 10 + 1 from rfl, validateFieldF_arr] at hlkv
  cases hri : runItems (validateFieldF 10) (.sObj teamKeys) fts with
  | none => rw [hri] at hlkv; cases hlkv
  | some outTs =>
      rw [hri] at hlkv
      simp only [Option.map_some', Option.some.injEq] at hlkv
      exact ⟨outTs, hlkv.symm, runItems_teamURL 10 _ hmemU hndT fts outTs hri⟩

/-! ### C1 -/

/-- C1: for V1, V2 and V3, when a non-empty `teams` array is present and the
validator returns a record, every input team has a (string) `url`, and the
`url`s of the output teams are exactly the backslash-normalized input `url`s
that pass the URL-validity predicate, in their original relative order —
teams whose normalized `url` is invalid are absent, all others present. -/
theorem claim1_teams_filter (fs : List (String × Value)) (ts : List Value)
    (hlk : lookupKey fs "teams" = some (.vArr ts)) (hne : ts ≠ []) :
    (∀ out, validateV1ConfigData (.vObj fs) = .ok (some (.vObj out)) →
      (∀ t ∈ ts, (teamURL t).isSome) ∧
      ∃ outTs, lookupKey out "teams" = some (.vArr outTs) ∧
        outTs.map teamURL = (ts.map (fun t => (teamURL t).map cleanURL)).filter
          (fun o => o.elim false isValidURL)) ∧
    (∀ out, validateV2ConfigData (.vObj fs) = .ok (some (.vObj out)) →
      (∀ t ∈ ts, (teamURL t).isSome) ∧
      ∃ outTs, lookupKey out "teams" = some (.vArr outTs) ∧
        outTs.map teamURL = (ts.map (fun t => (teamURL t).map cleanURL)).filter
          (fun o => o.elim false isValidURL)) ∧
    (∀ out, validateV3ConfigData (.vObj fs) = .ok (some (.vObj out)) →
      (∀ t ∈ ts, (teamURL t).isSome) ∧
      ∃ outTs, lookupKey out "teams" = some (.vArr outTs) ∧
        outTs.map teamURL = (ts.map (fun t => (teamURL t).map cleanURL)).filter
          (fun o => o.elim false isValidURL)) := by
  have hne' : ts.isEmpty = false := by
    cases ts with
    | nil => exact absurd rfl hne
    | cons a l => rfl
  refine ⟨?_, ?_, ?_⟩
  · intro out hok
    cases hs : sanitizeTeams cleanTeamV1 (.vObj fs) with
    | error e => simp [validateV1ConfigData, hs] at hok
    | ok d =>
        rcases sanitizeTeams_teams_inv _ fs ts hlk hne' d hs with ⟨ts', hmap, rfl⟩
        rcases mapTeams_urls cleanTeamV1 cleanTeamV1_url ts ts' hmap with ⟨hurls, hsome⟩
        simp only [validateV1ConfigData, hs, Except.ok.injEq] at hok
        have hg : lookupKey (setKey fs "teams" (.vArr (ts'.filter teamFilterPred)))
            "teams" = some (.vArr (ts'.filter teamFilterPred)) := lookupKey_setKey_self _ _ _
        rcases teams_out_urls _ _ (List.mem_cons_of_mem _ (List.mem_cons_self _ _))
          (by decide) (List.mem_cons_of_mem _ (List.mem_cons_self _ _)) (by decide)
          _ out _ hg hok with ⟨outTs, ho1, ho2⟩
        refine ⟨hsome, outTs, ho1, ?_⟩
        rw [ho2, map_filter_teamURL, hurls]
  · intro out hok
    cases hs : sanitizeTeams cleanTeamV23 (.vObj fs) with
    | error e => simp [validateV2ConfigData, hs] at hok
    | ok d =>
        rcases sanitizeTeams_teams_inv _ fs ts hlk hne' d hs with ⟨ts', hmap, rfl⟩
        rcases mapTeams_urls cleanTeamV23 cleanTeamV23_url ts ts' hmap with ⟨hurls, hsome⟩
        simp only [validateV2ConfigData, hs, Except.ok.injEq] at hok
        have hg : lookupKey (spellCheckFix
            (setKey fs "teams" (.vArr (ts'.filter teamFilterPred)))).1 "teams" =
            some (.vArr (ts'.filter teamFilterPred)) := by
          rw [spellCheckFix_lookup_ne _ _ (by decide), lookupKey_setKey_self]
        rcases teams_out_urls _ _ (List.mem_cons_of_mem _ (List.mem_cons_self _ _))
          (by decide) (List.mem_cons_of_mem _ (List.mem_cons_self _ _)) (by decide)
          _ out _ hg hok with ⟨outTs, ho1, ho2⟩
        refine ⟨hsome, outTs, ho1, ?_⟩
        rw [ho2, map_filter_teamURL, hurls]
  · intro out hok
    cases hs : sanitizeTeams cleanTeamV23 (.vObj fs) with
    | error e => simp [validateV3ConfigData, hs] at hok
    | ok d =>
        rcases sanitizeTeams_teams_inv _ fs ts hlk hne' d hs with ⟨ts', hmap, rfl⟩
        rcases mapTeams_urls cleanTeamV23 cleanTeamV23_url ts ts' hmap with ⟨hurls, hsome⟩
        simp only [validateV3ConfigData, hs, Except.ok.injEq] at hok
        have hg : lookupKey (spellCheckFix
            (setKey fs "teams" (.vArr (ts'.filter teamFilterPred)))).1 "teams" =
            some (.vArr (ts'.filter teamFilterPred)) := by
          rw [spellCheckFix_lookup_ne _ _ (by decide), lookupKey_setKey_self]
        rcases teams_out_urls _ _ (List.mem_cons_of_mem _ (List.mem_cons_self _ _))
          (by decide) (List.mem_cons_of_mem _ (List.mem_cons_self _ _)) (by decide)
          _ out _ hg hok with ⟨outTs, ho1, ho2⟩
        refine ⟨hsome, outTs, ho1, ?_⟩
        rw [ho2, map_filter_teamURL, hurls]

/-- Witness for C1: the team whose URL repairs to `https://a.com/x` is kept
(backslash-normalized), the team with `bad url` is dropped. -/
theorem claim1_teams_filter_witness :
    (∀ t ∈ [Value.vObj [("name", .vStr "a"), ("url", .vStr "HTTPS://A.com\\x")],
            Value.vObj [("name", .vStr "b"), ("url", .vStr "bad url")]],
      (teamURL t).isSome) ∧
    ∃ outTs,
      lookupKey [("version", .vNum 2),
        ("teams", .vArr [.vObj [("name", .vStr "a"), ("url", .vStr "https://a.com/x")]]),
        ("showTrayIcon", .vBool false), ("trayIconTheme", .vStr "light"),
        ("minimizeToTray", .vBool false), ("showUnreadBadge", .vBool true),
        ("useSpellChecker", .vBool true), ("enableHardwareAcceleration", .vBool true),
        ("autostart", .vBool true), ("spellCheckerLocale", .vStr "en-US"),
        ("darkMode", .vBool false)] "teams" = some (.vArr outTs) ∧
      outTs.map teamURL =
        (([Value.vObj [("name", .vStr "a"), ("url", .vStr "HTTPS://A.com\\x")],
           Value.vObj [("name", .vStr "b"), ("url", .vStr "bad url")]].map
            (fun t => (teamURL t).map cleanURL)).filter
          (fun o => o.elim false isValidURL)) :=
  (claim1_teams_filter
    [("teams", .vArr [.vObj [("name", .vStr "a"), ("url", .vStr "HTTPS://A.com\\x")],
                      .vObj [("name", .vStr "b"), ("url", .vStr "bad url")]])]
    [.vObj [("name", .vStr "a"), ("url", .vStr "HTTPS://A.com\\x")],
     .vObj [("name", .vStr "b"), ("url", .vStr "bad url")]]
    rfl (List.cons_ne_nil _ _)).2.1
    [("version", .vNum 2),
     ("teams", .vArr [.vObj [("name", .vStr "a"), ("url", .vStr "https://a.com/x")]]),
     ("showTrayIcon", .vBool false), ("trayIconTheme", .vStr "light"),
     ("minimizeToTray", .vBool false), ("showUnreadBadge", .vBool true),
     ("useSpellChecker", .vBool true), ("enableHardwareAcceleration", .vBool true),
     ("autostart", .vBool true), ("spellCheckerLocale", .vStr "en-US"),
     ("darkMode", .vBool false)] rfl

/-! ### Declared keys (for C6) -/

/-- The keys a schema declares: the named keys of a `Joi.object({...})`, and
the keys matching the key pattern of a `Joi.object().pattern(...)`; every
other key is unknown and is stripped by `stripUnknown: true`. -/
def declaredKey (s : Schema) (k : String) : Bool :=
  match s with
  | .sObj keys => keys.any (fun p => p.1 == k)
  | .sPattern kc _ => kc.run k
  | _ => false

theorem declaredKey_of_mem (keys : List (String × Schema)) (k : String)
    (h : k ∈ keys.map Prod.fst) : declaredKey (.sObj keys) k = true := by
  simp only [declaredKey, List.any_eq_true]
  rcases List.mem_map.mp h with ⟨p, hp, rfl⟩
  exact ⟨p, hp, by simp⟩

theorem runKeys_filter_declared (vf : Schema → Option Value → Option (Option Value))
    (keys : List (String × Schema)) (fs : List (String × Value)) :
    runKeys vf keys (fs.filter (fun p => declaredKey (Schema.sObj keys) p.1)) =
      runKeys vf keys fs :=
  runKeys_congr vf keys _ fs (fun k _ hm =>
    lookupKey_filter _ fs k (declaredKey_of_mem keys k (List.mem_map_of_mem Prod.fst hm)))

theorem validateAgainstSchema_filter_obj (S : Schema) (keys : List (String × Schema))
    (hS : S = .sObj keys) (fs : List (String × Value)) :
    validateAgainstSchema (.vObj (fs.filter (fun p => declaredKey S p.1))) S =
      validateAgainstSchema (.vObj fs) S := by
  subst hS
  rw [validateAgainstSchema_obj, validateAgainstSchema_obj, runKeys_filter_declared]

theorem validateAgainstSchema_out_declared_obj (S : Schema) (keys : List (String × Schema))
    (hS : S = .sObj keys) (fs out : List (String × Value))
    (h : validateAgainstSchema (.vObj fs) S = some (.vObj out)) :
    ∀ p ∈ out, declaredKey S p.1 = true := by
  have hrun := validateAgainstSchema_inv S keys hS fs out h
  subst hS
  intro p hp
  exact declaredKey_of_mem keys p.1 (runKeys_subset _ keys fs out hrun p hp)

theorem validateAgainstSchema_pattern_inv (S : Schema) (kc : StrCheck) (val : Schema)
    (hS : S = .sPattern kc val) (fs out : List (String × Value))
    (h : validateAgainstSchema (.vObj fs) S = some (.vObj out)) :
    runPattern (validateFieldF 11) kc val fs = some out := by
  subst hS
  rw [validateAgainstSchema_pattern] at h
  rcases Option.map_eq_some'.mp h with ⟨out', h1, h2⟩
  injection h2 with h3
  exact h3 ▸ h1

theorem validateAgainstSchema_filter_pattern (S : Schema) (kc : StrCheck) (val : Schema)
    (hS : S = .sPattern kc val) (fs : List (String × Value)) :
    validateAgainstSchema (.vObj (fs.filter (fun p => declaredKey S p.1))) S =
      validateAgainstSchema (.vObj fs) S := by
  subst hS
  rw [validateAgainstSchema_pattern, validateAgainstSchema_pattern]
  have h : (fun p : String × Value => declaredKey (.sPattern kc val) p.1) =
      (fun q : String × Value => kc.run q.1) := rfl
  rw [h, runPattern_filter]

theorem validateAgainstSchema_out_declared_pattern (S : Schema) (kc : StrCheck)
    (val : Schema) (hS : S = .sPattern kc val) (fs out : List (String × Value))
    (h : validateAgainstSchema (.vObj fs) S = some (.vObj out)) :
    ∀ p ∈ out, declaredKey S p.1 = true := by
  have hrun := validateAgainstSchema_pattern_inv S kc val hS fs out h
  subst hS
  intro p hp
  exact runPattern_subset _ kc val fs out hrun p hp

/-- Teams sanitization commutes with restriction to a key set containing
`teams`. -/
theorem sanitizeTeams_filter (clean : Value → Except Unit Value) (pk : String → Bool)
    (hpk : pk "teams" = true) (fs : List (String × Value)) :
    sanitizeTeams clean (.vObj (fs.filter (fun p => pk p.1))) =
      (match sanitizeTeams clean (.vObj fs) with
       | .error e => .error e
       | .ok (.vObj g) => .ok (.vObj (g.filter (fun p => pk p.1)))
       | .ok d => .ok d) := by
  have hlk : lookupKey (fs.filter (fun p => pk p.1)) "teams" = lookupKey fs "teams" :=
    lookupKey_filter pk fs "teams" hpk
  simp only [sanitizeTeams, hlk]
  cases hl : lookupKey fs "teams" with
  | none => rfl
  | some tv =>
      cases tv with
      | vArr ts =>
          by_cases hemp : ts.isEmpty = true
          · simp [hemp]
          · simp only [hemp, if_false, Bool.false_eq_true]
            cases hmap : mapTeams clean ts with
            | error e => rfl
            | ok ts' =>
                simp only [Except.ok.injEq, Value.vObj.injEq]
                exact setKey_filter pk "teams" hpk fs (.vArr (ts'.filter teamFilterPred))
      | vNull => rfl
      | vBool b => rfl
      | vNum q => rfl
      | vStr s => rfl
      | vObj g => rfl

/-- The spellchecker fix commutes with restriction to a key set containing
`spellCheckerURL`. -/
theorem spellCheckFix_filter (pk : String → Bool) (hpk : pk "spellCheckerURL" = true)
    (g : List (String × Value)) :
    (spellCheckFix (g.filter (fun p => pk p.1))).1 =
      ((spellCheckFix g).1).filter (fun p => pk p.1) := by
  have hlk : lookupKey (g.filter (fun p => pk p.1)) "spellCheckerURL" =
      lookupKey g "spellCheckerURL" := lookupKey_filter pk g _ hpk
  simp only [spellCheckFix, hlk]
  cases hl : lookupKey g "spellCheckerURL" with
  | none => rfl
  | some v =>
      by_cases hc : (jsTruthy v && !isValidURLV v) = true
      · simp only [hc, if_pos]
        exact eraseKey_filter pk "spellCheckerURL" g
      · simp [hc]

theorem validateV1_filter_declared (fs : List (String × Value)) :
    validateV1ConfigData (.vObj (fs.filter (fun p => declaredKey configDataSchemaV1 p.1))) =
      validateV1ConfigData (.vObj fs) := by
  simp only [validateV1ConfigData]
  rw [sanitizeTeams_filter cleanTeamV1 _ (by decide) fs]
  cases hs : sanitizeTeams cleanTeamV1 (.vObj fs) with
  | error e => rfl
  | ok d =>
      rcases sanitizeTeams_ok_obj _ fs d hs with ⟨g, rfl, _⟩
      simp only []
      rw [validateAgainstSchema_filter_obj configDataSchemaV1 _ rfl]

theorem validateV2_filter_declared (fs : List (String × Value)) :
    validateV2ConfigData (.vObj (fs.filter (fun p => declaredKey configDataSchemaV2 p.1))) =
      validateV2ConfigData (.vObj fs) := by
  simp only [validateV2ConfigData]
  rw [sanitizeTeams_filter cleanTeamV23 _ (by decide) fs]
  cases hs : sanitizeTeams cleanTeamV23 (.vObj fs) with
  | error e => rfl
  | ok d =>
      rcases sanitizeTeams_ok_obj _ fs d hs with ⟨g, rfl, _⟩
      simp only []
      rw [spellCheckFix_filter _ (by decide) g,
        validateAgainstSchema_filter_obj configDataSchemaV2 _ rfl]

theorem validateV3_filter_declared (fs : List (String × Value)) :
    validateV3ConfigData (.vObj (fs.filter (fun p => declaredKey configDataSchemaV3 p.1))) =
      validateV3ConfigData (.vObj fs) := by
  simp only [validateV3ConfigData]
  rw [sanitizeTeams_filter cleanTeamV23 _ (by decide) fs]
  cases hs : sanitizeTeams cleanTeamV23 (.vObj fs) with
  | error e => rfl
  | ok d =>
      rcases sanitizeTeams_ok_obj _ fs d hs with ⟨g, rfl, _⟩
      simp only []
      rw [spellCheckFix_filter _ (by decide) g,
        validateAgainstSchema_filter_obj configDataSchemaV3 _ rfl]

theorem validateV1_out_declared (fs out : List (String × Value))
    (h : validateV1ConfigData (.vObj fs) = .ok (some (.vObj out))) :
    ∀ p ∈ out, declaredKey configDataSchemaV1 p.1 = true := by
  cases hs : sanitizeTeams cleanTeamV1 (.vObj fs) with
  | error e => simp [validateV1ConfigData, hs] at h
  | ok d =>
      rcases sanitizeTeams_ok_obj _ fs d hs with ⟨g, rfl, _⟩
      simp only [validateV1ConfigData, hs, Except.ok.injEq] at h
      exact validateAgainstSchema_out_declared_obj configDataSchemaV1 _ rfl _ out h

theorem validateV2_out_declared (fs out : List (String × Value))
    (h : validateV2ConfigData (.vObj fs) = .ok (some (.vObj out))) :
    ∀ p ∈ out, declaredKey configDataSchemaV2 p.1 = true := by
  cases hs : sanitizeTeams cleanTeamV23 (.vObj fs) with
  | error e => simp [validateV2ConfigData, hs] at h
  | ok d =>
      rcases sanitizeTeams_ok_obj _ fs d hs with ⟨g, rfl, _⟩
      simp only [validateV2ConfigData, hs, Except.ok.injEq] at h
      exact validateAgainstSchema_out_declared_obj configDataSchemaV2 _ rfl _ out h

theorem validateV3_out_declared (fs out : List (String × Value))
    (h : validateV3ConfigData (.vObj fs) = .ok (some (.vObj out))) :
    ∀ p ∈ out, declaredKey configDataSchemaV3 p.1 = true := by
  cases hs : sanitizeTeams cleanTeamV23 (.vObj fs) with
  | error e => simp [validateV3ConfigData, hs] at h
  | ok d =>
      rcases sanitizeTeams_ok_obj _ fs d hs with ⟨g, rfl, _⟩
      simp only [validateV3ConfigData, hs, Except.ok.injEq] at h
      exact validateAgainstSchema_out_declared_obj configDataSchemaV3 _ rfl _ out h

/-! ### C6 -/

/-- C6: for every validator, restricting the input record to the keys its
schema declares (named keys, or pattern-matching keys for the store schemas)
does not change the result — so an unknown top-level field never influences
validation and in particular never by itself causes null — and every key of
a normalized output is declared. -/
theorem claim6_unknown_fields (fs : List (String × Value)) :
    (validateArgs (.vObj (fs.filter (fun p => declaredKey argsSchema p.1))) =
      validateArgs (.vObj fs)) ∧
    (∀ out, validateArgs (.vObj fs) = some (.vObj out) →
      ∀ p ∈ out, declaredKey argsSchema p.1 = true) ∧
    (validateBoundsInfo (.vObj (fs.filter (fun p => declaredKey boundsInfoSchema p.1))) =
      validateBoundsInfo (.vObj fs)) ∧
    (∀ out, validateBoundsInfo (.vObj fs) = some (.vObj out) →
      ∀ p ∈ out, declaredKey boundsInfoSchema p.1 = true) ∧
    (validateAppState (.vObj (fs.filter (fun p => declaredKey appStateSchema p.1))) =
      validateAppState (.vObj fs)) ∧
    (∀ out, validateAppState (.vObj fs) = some (.vObj out) →
      ∀ p ∈ out, declaredKey appStateSchema p.1 = true) ∧
    (validateV0ConfigData (.vObj (fs.filter (fun p => declaredKey configDataSchemaV0 p.1))) =
      validateV0ConfigData (.vObj fs)) ∧
    (∀ out, validateV0ConfigData (.vObj fs) = some (.vObj out) →
      ∀ p ∈ out, declaredKey configDataSchemaV0 p.1 = true) ∧
    (validateV1ConfigData (.vObj (fs.filter (fun p => declaredKey configDataSchemaV1 p.1))) =
      validateV1ConfigData (.vObj fs)) ∧
    (∀ out, validateV1ConfigData (.vObj fs) = .ok (some (.vObj out)) →
      ∀ p ∈ out, declaredKey configDataSchemaV1 p.1 = true) ∧
    (validateV2ConfigData (.vObj (fs.filter (fun p => declaredKey configDataSchemaV2 p.1))) =
      validateV2ConfigData (.vObj fs)) ∧
    (∀ out, validateV2ConfigData (.vObj fs) = .ok (some (.vObj out)) →
      ∀ p ∈ out, declaredKey configDataSchemaV2 p.1 = true) ∧
    (validateV3ConfigData (.vObj (fs.filter (fun p => declaredKey configDataSchemaV3 p.1))) =
      validateV3ConfigData (.vObj fs)) ∧
    (∀ out, validateV3ConfigData (.vObj fs) = .ok (some (.vObj out)) →
      ∀ p ∈ out, declaredKey configDataSchemaV3 p.1 = true) ∧
    (validateCertificateStore
        (.vObj (fs.filter (fun p => declaredKey certificateStoreSchema p.1))) =
      validateCertificateStore (.vObj fs)) ∧
    (∀ out, validateCertificateStore (.vObj fs) = .ok (some (.vObj out)) →
      ∀ p ∈ out, declaredKey certificateStoreSchema p.1 = true) ∧
    (validateTrustedOriginsStore
        (.vObj (fs.filter (fun p => declaredKey trustedOriginsSchema p.1))) =
      validateTrustedOriginsStore (.vObj fs)) ∧
    (∀ out, validateTrustedOriginsStore (.vObj fs) = .ok (some (.vObj out)) →
      ∀ p ∈ out, declaredKey trustedOriginsSchema p.1 = true) ∧
    (validateOriginPermissions
        (.vObj (fs.filter (fun p => declaredKey originPermissionsSchema p.1))) =
      validateOriginPermissions (.vObj fs)) ∧
    (∀ out, validateOriginPermissions (.vObj fs) = .ok (some (.vObj out)) →
      ∀ p ∈ out, declaredKey originPermissionsSchema p.1 = true) ∧
    (validateAllowedProtocols
        (.vObj (fs.filter (fun p => declaredKey allowedProtocolsSchema p.1))) =
      validateAllowedProtocols (.vObj fs)) ∧
    (∀ out, validateAllowedProtocols (.vObj fs) = some (.vObj out) →
      ∀ p ∈ out, declaredKey allowedProtocolsSchema p.1 = true) := by
  refine ⟨validateAgainstSchema_filter_obj argsSchema _ rfl fs,
    fun out h => validateAgainstSchema_out_declared_obj argsSchema _ rfl fs out h,
    validateAgainstSchema_filter_obj boundsInfoSchema _ rfl fs,
    fun out h => validateAgainstSchema_out_declared_obj boundsInfoSchema _ rfl fs out h,
    validateAgainstSchema_filter_obj appStateSchema _ rfl fs,
    fun out h => validateAgainstSchema_out_declared_obj appStateSchema _ rfl fs out h,
    validateAgainstSchema_filter_obj configDataSchemaV0 _ rfl fs,
    fun out h => validateAgainstSchema_out_declared_obj configDataSchemaV0 _ rfl fs out h,
    validateV1_filter_declared fs,
    fun out h => validateV1_out_declared fs out h,
    validateV2_filter_declared fs,
    fun out h => validateV2_out_declared fs out h,
    validateV3_filter_declared fs,
    fun out h => validateV3_out_declared fs out h,
    congrArg Except.ok (validateAgainstSchema_filter_pattern certificateStoreSchema _ _ rfl fs),
    ?_, congrArg Except.ok (validateAgainstSchema_filter_pattern trustedOriginsSchema _ _ rfl fs),
    ?_, congrArg Except.ok (validateAgainstSchema_filter_obj originPermissionsSchema _ rfl fs),
    ?_, ?_, ?_⟩
  · intro out h
    have h2 : Except.ok (ε := Unit)
        (validateAgainstSchema (.vObj fs) certificateStoreSchema) =
        .ok (some (.vObj out)) := h
    injection h2 with h3
    exact validateAgainstSchema_out_declared_pattern certificateStoreSchema _ _ rfl fs out h3
  · intro out h
    have h2 : Except.ok (ε := Unit)
        (validateAgainstSchema (.vObj fs) trustedOriginsSchema) =
        .ok (some (.vObj out)) := h
    injection h2 with h3
    exact validateAgainstSchema_out_declared_pattern trustedOriginsSchema _ _ rfl fs out h3
  · intro out h
    have h2 : Except.ok (ε := Unit)
        (validateAgainstSchema (.vObj fs) originPermissionsSchema) =
        .ok (some (.vObj out)) := h
    injection h2 with h3
    exact validateAgainstSchema_out_declared_obj originPermissionsSchema _ rfl fs out h3
  · rfl
  · intro out h
    rw [show validateAllowedProtocols (.vObj fs) = (none : Option Value) from rfl] at h
    cases h

/-- Witness for C6: an unknown `junk` key does not change the result of
`validateArgs` and is absent from (all keys of) the normalized output. -/
theorem claim6_unknown_fields_witness :
    validateArgs (.vObj ([("hidden", .vBool true), ("junk", .vNum 7)].filter
      (fun p => declaredKey argsSchema p.1))) =
      validateArgs (.vObj [("hidden", .vBool true), ("junk", .vNum 7)]) ∧
    (∀ p ∈ [("hidden", Value.vBool true)], declaredKey argsSchema p.1 = true) :=
  ⟨(claim6_unknown_fields [("hidden", .vBool true), ("junk", .vNum 7)]).1,
   (claim6_unknown_fields [("hidden", .vBool true), ("junk", .vNum 7)]).2.1
     [("hidden", .vBool true)] rfl⟩

/-! ### Fixed points of the sanitizers (for C4) -/

theorem cleanChar_ne_backslash (c : Char) : cleanChar c ≠ '\\' := by
  unfold cleanChar
  by_cases h : c.toLower = '\\'
  · rw [if_pos h]
    decide
  · rw [if_neg h]
    exact h

theorem map_cleanChar_no_backslash : ∀ (l : List Char),
    (l.map cleanChar).contains '\\' = false
  | [] => rfl
  | c :: l => by
      simp only [List.map_cons, List.contains_cons]
      rw [map_cleanChar_no_backslash l]
      simp only [Bool.or_false]
      exact beq_eq_false_iff_ne.mpr (Ne.symm (cleanChar_ne_backslash c))

/-- `cleanURL` output never contains a backslash, so `cleanURL` is
idempotent. -/
theorem cleanURL_fix (s : String) : cleanURL (cleanURL s) = cleanURL s := by
  unfold cleanURL
  by_cases h : s.toList.contains '\\' = true
  · simp only [h, if_true]
    have h2 : (String.mk (s.toList.map cleanChar)).toList.contains '\\' = false := by
      show (s.toList.map cleanChar).contains '\\' = false
      exact map_cleanChar_no_backslash s.toList
    rw [show ((String.mk (s.toList.map cleanChar)).toList.contains '\\') = false from h2]
    simp
  · simp only [Bool.not_eq_true] at h
    simp only [h, Bool.false_eq_true, if_false]

theorem validateFieldF_required_ne_some_none (n : Nat) (s : Schema)
    (hreq : s.required = true) (x : Option Value) :
    validateFieldF n s x ≠ some none := by
  cases n with
  | zero => simp [validateFieldF]
  | succ n =>
      cases x with
      | none => simp [validateFieldF, hreq]
      | some v => exact validateFieldF_some_ne (n + 1) s v

theorem runItems_mem (vf : Schema → Option Value → Option (Option Value)) (s : Schema) :
    ∀ (xs ws : List Value), runItems vf s xs = some ws →
    ∀ w ∈ ws, ∃ x ∈ xs, vf s (some x) = some (some w)
  | [], ws, h => by
      simp only [runItems, Option.some.injEq] at h
      subst h
      intro w hw
      cases hw
  | x :: xs, ws, h => by
      simp only [runItems] at h
      cases hv : vf s (some x) with
      | none => rw [hv] at h; cases h
      | some res =>
          rw [hv] at h
          cases res with
          | none => cases h
          | some w0 =>
              rcases Option.map_eq_some'.mp h with ⟨tail, htail, hw⟩
              subst hw
              intro w hw
              rcases List.mem_cons.mp hw with rfl | hw'
              · exact ⟨x, List.mem_cons_self _ _, hv⟩
              · rcases runItems_mem vf s xs tail htail w hw' with ⟨x', hx', hvx'⟩
                exact ⟨x', List.mem_cons_of_mem _ hx', hvx'⟩

theorem mapTeams_id (clean : Value → Except Unit Value) :
    ∀ (ts : List Value), (∀ t ∈ ts, clean t = .ok t) → mapTeams clean ts = .ok ts
  | [], _ => rfl
  | t :: ts, h => by
      simp only [mapTeams, h t (List.mem_cons_self _ _),
        mapTeams_id clean ts (fun t' ht' => h t' (List.mem_cons_of_mem _ ht'))]

/-- When every team is a fixed point of the mapper and passes the filter,
teams sanitization leaves the record unchanged. -/
theorem sanitizeTeams_id (clean : Value → Except Unit Value)
    (fs : List (String × Value)) (ts : List Value)
    (hlk : lookupKey fs "teams" = some (.vArr ts))
    (hid : ∀ t ∈ ts, clean t = .ok t)
    (hfil : ∀ t ∈ ts, teamFilterPred t = true) :
    sanitizeTeams clean (.vObj fs) = .ok (.vObj fs) := by
  simp only [sanitizeTeams, hlk]
  by_cases hemp : ts.isEmpty = true
  · simp [hemp]
  · simp only [hemp, Bool.false_eq_true, if_false]
    rw [mapTeams_id clean ts hid]
    simp only []
    rw [List.filter_eq_self.mpr hfil, setKey_self fs "teams" _ hlk]

theorem spellCheckFix_eq_of_cond (g : List (String × Value)) (v0 : Value)
    (hl : lookupKey g "spellCheckerURL" = some v0)
    (hc : (jsTruthy v0 && !isValidURLV v0) = true) :
    (spellCheckFix g).1 = eraseKey g "spellCheckerURL" := by
  simp [spellCheckFix, hl, hc]

theorem spellCheckFix_eq_of_notcond (g : List (String × Value)) (v0 : Value)
    (hl : lookupKey g "spellCheckerURL" = some v0)
    (hc : (jsTruthy v0 && !isValidURLV v0) = false) :
    (spellCheckFix g).1 = g := by
  simp [spellCheckFix, hl, hc]

theorem spellCheckFix_post (g : List (String × Value)) (v : Value)
    (h : lookupKey (spellCheckFix g).1 "spellCheckerURL" = some v) :
    (jsTruthy v && !isValidURLV v) = false := by
  cases hl : lookupKey g "spellCheckerURL" with
  | none =>
      rw [spellCheckFix_absent g hl, hl] at h
      cases h
  | some v0 =>
      by_cases hc : (jsTruthy v0 && !isValidURLV v0) = true
      · rw [spellCheckFix_eq_of_cond g v0 hl hc, lookupKey_eraseKey_self] at h
        cases h
      · have hc' : (jsTruthy v0 && !isValidURLV v0) = false := by
          simpa using hc
        rw [spellCheckFix_eq_of_notcond g v0 hl hc', hl] at h
        injection h with h1
        subst h1
        exact hc' 

theorem spellCheckFix_noop (g : List (String × Value))
    (h : ∀ v, lookupKey g "spellCheckerURL" = some v →
      (jsTruthy v && !isValidURLV v) = false) :
    (spellCheckFix g).1 = g := by
  simp only [spellCheckFix]
  cases hl : lookupKey g "spellCheckerURL" with
  | none => rfl
  | some v => simp [h v hl]

theorem teamURL_vStr (w : Value) (u : String) (h : teamURL w = some u) :
    ∃ wfs, w = .vObj wfs ∧ lookupKey wfs "url" = some (.vStr u) := by
  cases w <;> simp [teamURL] at h
  case vObj wfs =>
    cases hl : lookupKey wfs "url" with
    | none => rw [hl] at h; cases h
    | some u0 =>
        rw [hl] at h
        cases u0 with
        | vStr u' =>
            simp only [Option.some.injEq] at h
            subst h
            exact ⟨wfs, rfl, hl⟩
        | vNull => cases h
        | vBool b => cases h
        | vNum q => cases h
        | vArr a => cases h
        | vObj o => cases h

theorem cleanTeamV23_id (w : Value) (u : String) (hurl : teamURL w = some u)
    (hfix : cleanURL u = u) : cleanTeamV23 w = .ok w := by
  rcases teamURL_vStr w u hurl with ⟨wfs, rfl, hl⟩
  simp only [cleanTeamV23, hl, hfix, Except.ok.injEq, Value.vObj.injEq]
  exact setKey_self wfs "url" _ hl

/-- A team that survived sanitization: its `url` is a string that is
URL-valid and a fixed point of `cleanURL`. -/
def goodTeam (t : Value) : Prop :=
  ∃ u, teamURL t = some u ∧ isValidURL u = true ∧ cleanURL u = u

theorem mapTeams_mem_url (clean : Value → Except Unit Value)
    (hclean : ∀ t w, clean t = .ok w →
      teamURL w = (teamURL t).map cleanURL ∧ (teamURL t).isSome)
    (ts ts' : List Value) (hmap : mapTeams clean ts = .ok ts') :
    ∀ t ∈ ts', ∃ s0, teamURL t = some (cleanURL s0) := by
  rcases mapTeams_urls clean hclean ts ts' hmap with ⟨heq, hsome⟩
  intro t ht
  have hmem : teamURL t ∈ ts'.map teamURL := List.mem_map_of_mem teamURL ht
  rw [heq] at hmem
  rcases List.mem_map.mp hmem with ⟨t0, ht0, hmapeq⟩
  rcases Option.isSome_iff_exists.mp (hsome t0 ht0) with ⟨s0, hs0⟩
  refine ⟨s0, ?_⟩
  rw [← hmapeq, hs0]
  rfl

theorem goodTeam_filter (ts' : List Value)
    (hclean : ∀ t ∈ ts', ∃ s0, teamURL t = some (cleanURL s0)) :
    ∀ t ∈ ts'.filter teamFilterPred, goodTeam t := by
  intro t ht
  rcases List.mem_filter.mp ht with ⟨ht', hp⟩
  rcases hclean t ht' with ⟨s0, hu⟩
  refine ⟨cleanURL s0, hu, ?_, cleanURL_fix s0⟩
  rw [teamFilterPred_eq, hu] at hp
  simpa using hp

theorem goodTeams_transport (outTs fts : List Value)
    (heq : outTs.map teamURL = fts.map teamURL)
    (hgood : ∀ t ∈ fts, goodTeam t) : ∀ w ∈ outTs, goodTeam w := by
  intro w hw
  have hmem : teamURL w ∈ outTs.map teamURL := List.mem_map_of_mem teamURL hw
  rw [heq] at hmem
  rcases List.mem_map.mp hmem with ⟨t, ht, hte⟩
  rcases hgood t ht with ⟨u, hu, hv, hf⟩
  exact ⟨u, hte ▸ hu, hv, hf⟩

/-- The structure of the `teams` field of a normalized config record. -/
theorem runKeys_teams_struct (cfgKeys : List (String × Schema)) (teamS : Schema)
    (hmemT : ("teams", Schema.sArr teamS (some (.vArr []))) ∈ cfgKeys)
    (hnd : (cfgKeys.map Prod.fst).Nodup)
    (g out : List (String × Value))
    (hrun : runKeys (validateFieldF 11) cfgKeys g = some out) :
    ∃ outTs, lookupKey out "teams" = some (.vArr outTs) ∧
      (outTs = [] ∨ ∃ xs, lookupKey g "teams" = some (.vArr xs) ∧
        runItems (validateFieldF 10) teamS xs = some outTs) := by
  have hlkv := runKeys_lookupKey (validateFieldF 11) _ g out hnd hrun "teams" _ hmemT
  cases hg : lookupKey g "teams" with
  | none =>
      rw [hg] at hlkv
      rw [show validateFieldF 11 (Schema.sArr teamS (some (.vArr []))) none =
        some (some (.vArr [])) from rfl] at hlkv
      injection hlkv with h1
      exact ⟨[], h1.symm, Or.inl rfl⟩
  | some tv =>
      rw [hg] at hlkv
      cases tv with
      | vArr xs =>
          rw [show (11 : Nat) = 10 + 1 from rfl, validateFieldF_arr] at hlkv
          cases hri : runItems (validateFieldF 10) teamS xs with
          | none => rw [hri] at hlkv; cases hlkv
          | some outTs =>
              rw [hri] at hlkv
              simp only [Option.map_some', Option.some.injEq] at hlkv
              exact ⟨outTs, hlkv.symm, Or.inr ⟨xs, rfl, hri⟩⟩
      | vNull =>
          rw [show validateFieldF 11 (Schema.sArr teamS (some (.vArr [])))
            (some .vNull) = none from rfl] at hlkv
          cases hlkv
      | vBool b =>
          rw [show validateFieldF 11 (Schema.sArr teamS (some (.vArr [])))
            (some (.vBool b)) = none from rfl] at hlkv
          cases hlkv
      | vNum q =>
          rw [show validateFieldF 11 (Schema.sArr teamS (some (.vArr [])))
            (some (.vNum q)) = none from rfl] at hlkv
          cases hlkv
      | vStr s =>
          rw [show validateFieldF 11 (Schema.sArr teamS (some (.vArr [])))
            (some (.vStr s)) = none from rfl] at hlkv
          cases hlkv
      | vObj o =>
          rw [show validateFieldF 11 (Schema.sArr teamS (some (.vArr [])))
            (some (.vObj o)) = none from rfl] at hlkv
          cases hlkv

theorem validateAgainstSchema_of_runKeys (S : Schema) (keys : List (String × Schema))
    (hS : S = .sObj keys) (fs out : List (String × Value))
    (hrun : runKeys (validateFieldF 11) keys fs = some out) :
    validateAgainstSchema (.vObj fs) S = some (.vObj out) := by
  subst hS
  rw [validateAgainstSchema_obj, hrun]
  rfl

/-- Idempotence of `runKeys` at the engine's fuel, derived from
`validateFieldF_idem`. -/
theorem runKeys_idem_engine (keys : List (String × Schema))
    (g out : List (String × Value)) (hok : SchemaOKF 12 (.sObj keys))
    (hrun : runKeys (validateFieldF 11) keys g = some out) :
    runKeys (validateFieldF 11) keys out = some out := by
  have h12 : validateFieldF 12 (.sObj keys) (some (.vObj g)) = some (some (.vObj out)) := by
    rw [show (12 : Nat) = 11 + 1 from rfl, validateFieldF_obj, hrun]
    rfl
  have hid := validateFieldF_idem 12 _ hok _ _ h12
  rw [show (12 : Nat) = 11 + 1 from rfl, validateFieldF_obj] at hid
  cases hri : runKeys (validateFieldF 11) keys out with
  | none => rw [hri] at hid; cases hid
  | some out' =>
      rw [hri] at hid
      simp only [Option.map_some', Option.some.injEq, Value.vObj.injEq] at hid
      rw [hid]

theorem runKeys_teamV1_shape (n : Nat) (tfs wfs : List (String × Value))
    (h : runKeys (validateFieldF n) [("name", Schema.sStr .free false true none),
      ("url", Schema.sStr .free false true none)] tfs = some wfs) :
    ∃ wn wu, wfs = [("name", wn), ("url", wu)] := by
  simp only [runKeys] at h
  cases hv1 : validateFieldF n (Schema.sStr .free false true none)
      (lookupKey tfs "name") with
  | none => rw [hv1] at h; cases h
  | some res1 =>
      rw [hv1] at h
      cases res1 with
      | none =>
          exact absurd hv1 (validateFieldF_required_ne_some_none n
            (Schema.sStr .free false true none) rfl _)
      | some wn =>
          cases hv2 : validateFieldF n (Schema.sStr .free false true none)
              (lookupKey tfs "url") with
          | none => rw [hv2] at h; simp at h
          | some res2 =>
              rw [hv2] at h
              cases res2 with
              | none =>
                  exact absurd hv2 (validateFieldF_required_ne_some_none n
                    (Schema.sStr .free false true none) rfl _)
              | some wu =>
                  simp only [Option.map_some', Option.some.injEq] at h
                  exact ⟨wn, wu, h.symm⟩

theorem cleanTeamV1_id (wn : Value) (u : String) (hfix : cleanURL u = u) :
    cleanTeamV1 (.vObj [("name", wn), ("url", .vStr u)]) =
      .ok (.vObj [("name", wn), ("url", .vStr u)]) := by
  rw [show cleanTeamV1 (.vObj [("name", wn), ("url", .vStr u)]) =
    .ok (.vObj [("name", wn), ("url", .vStr (cleanURL u))]) from rfl, hfix]

/-- Validation of a present value against a non-container schema never
rewrites the value: Joi returns the input itself once it passes. -/
theorem validateFieldF_scalar_id (n : Nat) (s : Schema) (hs : s.isContainer = false)
    (v w : Value) (h : validateFieldF n s (some v) = some (some w)) : w = v := by
  cases n with
  | zero => simp [validateFieldF] at h
  | succ n =>
      simp only [validateFieldF] at h
      split at h
      · injection h with h1
        injection h1 with h2
        exact h2.symm
      · split at h
        · cases h
        · split at h
          · cases h
          · rcases Option.map_eq_some'.mp h with ⟨w0, hw0, hww⟩
            injection hww with h4
            exact h4 ▸ validateBase_scalar (validateFieldF n) s v w0 hs hw0

/-- Only an object validates against an object schema. -/
theorem validateAgainstSchema_input_obj (S : Schema) (keys : List (String × Schema))
    (hS : S = .sObj keys) (d : Value) (w : Value)
    (h : validateAgainstSchema d S = some w) : ∃ fs, d = .vObj fs := by
  subst hS
  cases d with
  | vObj fs => exact ⟨fs, rfl⟩
  | vNull =>
      rw [show validateAgainstSchema .vNull (.sObj keys) = none from rfl] at h
      cases h
  | vBool b =>
      rw [show validateAgainstSchema (.vBool b) (.sObj keys) = none from rfl] at h
      cases h
  | vNum q =>
      rw [show validateAgainstSchema (.vNum q) (.sObj keys) = none from rfl] at h
      cases h
  | vStr s =>
      rw [show validateAgainstSchema (.vStr s) (.sObj keys) = none from rfl] at h
      cases h
  | vArr a =>
      rw [show validateAgainstSchema (.vArr a) (.sObj keys) = none from rfl] at h
      cases h

/-- Inversion of field validation at an object schema. -/
theorem validateFieldF_obj_inv (n : Nat) (keys : List (String × Schema)) (x w : Value)
    (h : validateFieldF (n + 1) (.sObj keys) (some x) = some (some w)) :
    ∃ tfs wfs, x = .vObj tfs ∧ w = .vObj wfs ∧
      runKeys (validateFieldF n) keys tfs = some wfs := by
  cases x with
  | vObj tfs =>
      rw [validateFieldF_obj] at h
      cases hrun : runKeys (validateFieldF n) keys tfs with
      | none => rw [hrun] at h; cases h
      | some wfs =>
          rw [hrun] at h
          simp only [Option.map_some', Option.some.injEq] at h
          exact ⟨tfs, wfs, rfl, h.symm, hrun⟩
  | vNull =>
      rw [show validateFieldF (n + 1) (.sObj keys) (some .vNull) = none from rfl] at h
      cases h
  | vBool b =>
      rw [show validateFieldF (n + 1) (.sObj keys) (some (.vBool b)) = none from rfl] at h
      cases h
  | vNum q =>
      rw [show validateFieldF (n + 1) (.sObj keys) (some (.vNum q)) = none from rfl] at h
      cases h
  | vStr s =>
      rw [show validateFieldF (n + 1) (.sObj keys) (some (.vStr s)) = none from rfl] at h
      cases h
  | vArr a =>
      rw [show validateFieldF (n + 1) (.sObj keys) (some (.vArr a)) = none from rfl] at h
      cases h

/-- Every team stored in the `teams` array of a sanitized record is good:
its `url` is a string accepted by the URL predicate and already
backslash-normalized. -/
theorem sanitizeTeams_good (clean : Value → Except Unit Value)
    (hclean : ∀ t w, clean t = .ok w →
      teamURL w = (teamURL t).map cleanURL ∧ (teamURL t).isSome)
    (r : Value) (g : List (String × Value))
    (hs : sanitizeTeams clean r = .ok (.vObj g)) :
    ∀ xs, lookupKey g "teams" = some (.vArr xs) → ∀ t ∈ xs, goodTeam t := by
  cases r with
  | vNull => exact absurd hs (by simp [sanitizeTeams])
  | vBool b => simp [sanitizeTeams] at hs
  | vNum q => simp [sanitizeTeams] at hs
  | vStr s => simp [sanitizeTeams] at hs
  | vArr a => simp [sanitizeTeams] at hs
  | vObj rfs =>
      intro xs hlkg t ht
      simp only [sanitizeTeams] at hs
      cases hlk : lookupKey rfs "teams" with
      | none =>
          rw [hlk] at hs
          simp only [Except.ok.injEq, Value.vObj.injEq] at hs
          subst hs
          rw [hlk] at hlkg
          cases hlkg
      | some tv =>
          rw [hlk] at hs
          cases tv with
          | vArr ts =>
              cases ts with
              | nil =>
                  simp only [List.isEmpty_nil, if_true, Except.ok.injEq,
                    Value.vObj.injEq] at hs
                  subst hs
                  rw [hlk] at hlkg
                  injection hlkg with h1
                  injection h1 with h2
                  rw [← h2] at ht
                  exact absurd ht (List.not_mem_nil t)
              | cons a l =>
                  simp only [List.isEmpty_cons, Bool.false_eq_true, if_false] at hs
                  cases hmap : mapTeams clean (a :: l) with
                  | error e => rw [hmap] at hs; cases hs
                  | ok ts' =>
                      rw [hmap] at hs
                      simp only [Except.ok.injEq, Value.vObj.injEq] at hs
                      subst hs
                      rw [lookupKey_setKey_self] at hlkg
                      injection hlkg with h1
                      injection h1 with h2
                      rw [← h2] at ht
                      exact goodTeam_filter ts'
                        (mapTeams_mem_url clean hclean (a :: l) ts' hmap) t ht
          | vNull =>
              simp only [Except.ok.injEq, Value.vObj.injEq] at hs
              subst hs
              rw [hlk] at hlkg
              cases hlkg
          | vBool b =>
              simp only [Except.ok.injEq, Value.vObj.injEq] at hs
              subst hs
              rw [hlk] at hlkg
              cases hlkg
          | vNum q =>
              simp only [Except.ok.injEq, Value.vObj.injEq] at hs
              subst hs
              rw [hlk] at hlkg
              cases hlkg
          | vStr s =>
              simp only [Except.ok.injEq, Value.vObj.injEq] at hs
              subst hs
              rw [hlk] at hlkg
              cases hlkg
          | vObj o =>
              simp only [Except.ok.injEq, Value.vObj.injEq] at hs
              subst hs
              rw [hlk] at hlkg
              cases hlkg

theorem goodTeam_fix23 (t : Value) (h : goodTeam t) : cleanTeamV23 t = .ok t := by
  rcases h with ⟨u, hurl, _, hfix⟩
  exact cleanTeamV23_id t u hurl hfix

theorem goodTeam_filterPred (t : Value) (h : goodTeam t) : teamFilterPred t = true := by
  rcases h with ⟨u, hurl, hv, _⟩
  rw [teamFilterPred_eq, hurl]
  exact hv

/-- The normalized output of a config run carries a teams array all of whose
members are good, provided the engine input's teams were good. -/
theorem config_out_good (cfgKeys teamKeys : List (String × Schema))
    (hmemT : ("teams", Schema.sArr (.sObj teamKeys) (some (.vArr []))) ∈ cfgKeys)
    (hnd : (cfgKeys.map Prod.fst).Nodup)
    (hmemU : ("url", Schema.sStr .free false true none) ∈ teamKeys)
    (hndT : (teamKeys.map Prod.fst).Nodup)
    (g2 out : List (String × Value))
    (hrun : runKeys (validateFieldF 11) cfgKeys g2 = some out)
    (hgoodIn : ∀ xs, lookupKey g2 "teams" = some (.vArr xs) → ∀ t ∈ xs, goodTeam t) :
    ∃ outTs, lookupKey out "teams" = some (.vArr outTs) ∧ ∀ w ∈ outTs, goodTeam w := by
  rcases runKeys_teams_struct cfgKeys (.sObj teamKeys) hmemT hnd g2 out hrun with
    ⟨outTs, hlkout, hcase⟩
  refine ⟨outTs, hlkout, ?_⟩
  rcases hcase with rfl | ⟨xs, hlkg, hri⟩
  · intro w hw; exact absurd hw (List.not_mem_nil w)
  · have heq : outTs.map teamURL = xs.map teamURL :=
      runItems_teamURL 10 teamKeys hmemU hndT xs outTs hri
    exact goodTeams_transport outTs xs heq (hgoodIn xs hlkg)

/-- A value stored at `spellCheckerURL` in the output of an engine run on a
spellchecker-fixed record never retriggers the spellchecker fix. -/
theorem runKeys_spell_out (cfgKeys : List (String × Schema))
    (hmemS : ("spellCheckerURL", Schema.sStr .free true false none) ∈ cfgKeys)
    (hnd : (cfgKeys.map Prod.fst).Nodup) (g : List (String × Value))
    (out : List (String × Value))
    (hrun : runKeys (validateFieldF 11) cfgKeys (spellCheckFix g).1 = some out) :
    ∀ v, lookupKey out "spellCheckerURL" = some v →
      (jsTruthy v && !isValidURLV v) = false := by
  have hspell := runKeys_lookupKey (validateFieldF 11) cfgKeys _ out hnd hrun
    "spellCheckerURL" _ hmemS
  intro v hv
  rw [hv] at hspell
  cases hlg : lookupKey (spellCheckFix g).1 "spellCheckerURL" with
  | none =>
      rw [hlg] at hspell
      rw [show validateFieldF 11 (Schema.sStr .free true false none) none =
        some none from rfl] at hspell
      injection hspell with h1
      cases h1
  | some v0 =>
      rw [hlg] at hspell
      have hv0 : v = v0 :=
        validateFieldF_scalar_id 11 (Schema.sStr .free true false none) rfl v0 v hspell
      rw [hv0]
      exact spellCheckFix_post g v0 hlg

/-- The normalized teams of a V1 run have exactly the two declared keys. -/
theorem runItems_teamV1_shapes (xs outTs : List Value)
    (hri : runItems (validateFieldF 10) teamSchemaV1 xs = some outTs) :
    ∀ t ∈ outTs, ∃ wn wu, t = .vObj [("name", wn), ("url", wu)] := by
  intro t ht
  rcases runItems_mem (validateFieldF 10) teamSchemaV1 xs outTs hri t ht with ⟨x, _, hval⟩
  rw [show (10 : Nat) = 9 + 1 from rfl] at hval
  rcases validateFieldF_obj_inv 9 [("name", Schema.sStr .free false true none),
    ("url", Schema.sStr .free false true none)] x t hval with ⟨tfs, wfs, _, rfl, hrun⟩
  rcases runKeys_teamV1_shape 9 tfs wfs hrun with ⟨wn, wu, rfl⟩
  exact ⟨wn, wu, rfl⟩

/-- A good V1 output team is a fixed point of the V1 team mapper. -/
theorem v1_out_team_fix (t : Value) (hgood : goodTeam t)
    (hshape : ∃ wn wu, t = .vObj [("name", wn), ("url", wu)]) :
    cleanTeamV1 t = .ok t := by
  rcases hshape with ⟨wn, wu, rfl⟩
  rcases hgood with ⟨u, hurl, _, hfix⟩
  cases wu with
  | vStr u2 =>
      have h3 : (some u2 : Option String) = some u := hurl
      injection h3 with h4
      rw [h4]
      exact cleanTeamV1_id wn u hfix
  | vNull => cases (show (none : Option String) = some u from hurl)
  | vBool b => cases (show (none : Option String) = some u from hurl)
  | vNum q => cases (show (none : Option String) = some u from hurl)
  | vArr a => cases (show (none : Option String) = some u from hurl)
  | vObj o => cases (show (none : Option String) = some u from hurl)

/-- Core of C4 for V2/V3: the three pieces of the pipeline each leave the
normalized output unchanged. -/
theorem validateV23_idem_core (cfgS : Schema) (cfgKeys teamKeys : List (String × Schema))
    (hS : cfgS = .sObj cfgKeys)
    (hmemT : ("teams", Schema.sArr (.sObj teamKeys) (some (.vArr []))) ∈ cfgKeys)
    (hmemS : ("spellCheckerURL", Schema.sStr .free true false none) ∈ cfgKeys)
    (hmemU : ("url", Schema.sStr .free false true none) ∈ teamKeys)
    (hnd : (cfgKeys.map Prod.fst).Nodup) (hndT : (teamKeys.map Prod.fst).Nodup)
    (hok12 : SchemaOKF 12 cfgS)
    (g out : List (String × Value))
    (hg : ∀ xs, lookupKey g "teams" = some (.vArr xs) → ∀ t ∈ xs, goodTeam t)
    (hvas : validateAgainstSchema (.vObj (spellCheckFix g).1) cfgS = some (.vObj out)) :
    sanitizeTeams cleanTeamV23 (.vObj out) = .ok (.vObj out) ∧
    (spellCheckFix out).1 = out ∧
    validateAgainstSchema (.vObj out) cfgS = some (.vObj out) := by
  subst hS
  have hrun := validateAgainstSchema_inv _ cfgKeys rfl _ out hvas
  have hg2 : ∀ xs, lookupKey (spellCheckFix g).1 "teams" = some (.vArr xs) →
      ∀ t ∈ xs, goodTeam t := by
    intro xs hlk
    rw [spellCheckFix_lookup_ne g "teams" (by decide)] at hlk
    exact hg xs hlk
  rcases config_out_good cfgKeys teamKeys hmemT hnd hmemU hndT _ out hrun hg2 with
    ⟨outTs, hlkout, hgoodOut⟩
  refine ⟨sanitizeTeams_id _ out outTs hlkout
      (fun t ht => goodTeam_fix23 t (hgoodOut t ht))
      (fun t ht => goodTeam_filterPred t (hgoodOut t ht)),
    spellCheckFix_noop out (runKeys_spell_out cfgKeys hmemS hnd g out hrun), ?_⟩
  exact validateAgainstSchema_of_runKeys _ cfgKeys rfl out out
    (runKeys_idem_engine cfgKeys _ out hok12 hrun)

/-! ### C4 -/

/-- C4: each of `validateV1ConfigData`, `validateV2ConfigData` and
`validateV3ConfigData` is idempotent on its non-null results — if the
validator returns a record, running it again on that record returns the
same record. -/
theorem claim4_idempotent (r w : Value) :
    (validateV1ConfigData r = .ok (some w) → validateV1ConfigData w = .ok (some w)) ∧
    (validateV2ConfigData r = .ok (some w) → validateV2ConfigData w = .ok (some w)) ∧
    (validateV3ConfigData r = .ok (some w) → validateV3ConfigData w = .ok (some w)) := by
  refine ⟨?_, ?_, ?_⟩
  · intro hok
    cases hs : sanitizeTeams cleanTeamV1 r with
    | error e => simp [validateV1ConfigData, hs] at hok
    | ok d =>
        simp only [validateV1ConfigData, hs, Except.ok.injEq] at hok
        rcases validateAgainstSchema_input_obj configDataSchemaV1 _ rfl d w hok with ⟨g, rfl⟩
        rcases validateAgainstSchema_shape configDataSchemaV1 _ rfl g w hok with ⟨out, rfl⟩
        have hrun := validateAgainstSchema_inv configDataSchemaV1 _ rfl g out hok
        have hg := sanitizeTeams_good cleanTeamV1 cleanTeamV1_url r g hs
        rcases runKeys_teams_struct _ teamSchemaV1
          (List.mem_cons_of_mem _ (List.mem_cons_self _ _)) (by decide) g out hrun with
          ⟨outTs, hlkout, hcase⟩
        have hgood : ∀ t ∈ outTs, goodTeam t := by
          rcases hcase with rfl | ⟨xs, hlkg, hri⟩
          · intro t ht; exact absurd ht (List.not_mem_nil t)
          · have heq : outTs.map teamURL = xs.map teamURL :=
              runItems_teamURL 10 _ (List.mem_cons_of_mem _ (List.mem_cons_self _ _))
                (by decide) xs outTs hri
            exact goodTeams_transport outTs xs heq (hg xs hlkg)
        have hshape : ∀ t ∈ outTs, ∃ wn wu, t = .vObj [("name", wn), ("url", wu)] := by
          rcases hcase with rfl | ⟨xs, hlkg, hri⟩
          · intro t ht; exact absurd ht (List.not_mem_nil t)
          · exact runItems_teamV1_shapes xs outTs hri
        have hsan : sanitizeTeams cleanTeamV1 (.vObj out) = .ok (.vObj out) :=
          sanitizeTeams_id _ out outTs hlkout
            (fun t ht => v1_out_team_fix t (hgood t ht) (hshape t ht))
            (fun t ht => goodTeam_filterPred t (hgood t ht))
        have hvas2 := validateAgainstSchema_of_runKeys configDataSchemaV1 _ rfl out out
          (runKeys_idem_engine _ g out (okfConfigV1 12) hrun)
        simp only [validateV1ConfigData, hsan, hvas2]
  · intro hok
    cases hs : sanitizeTeams cleanTeamV23 r with
    | error e => simp [validateV2ConfigData, hs] at hok
    | ok d =>
        cases d with
        | vObj g =>
            simp only [validateV2ConfigData, hs, Except.ok.injEq] at hok
            rcases validateAgainstSchema_shape configDataSchemaV2 _ rfl _ w hok with ⟨out, rfl⟩
            have hg := sanitizeTeams_good cleanTeamV23 cleanTeamV23_url r g hs
            rcases validateV23_idem_core configDataSchemaV2 _ _ rfl
              (List.mem_cons_of_mem _ (List.mem_cons_self _ _))
              (by repeat first | exact List.mem_cons_self _ _ | apply List.mem_cons_of_mem)
              (List.mem_cons_of_mem _ (List.mem_cons_self _ _))
              (by decide) (by decide) (okfConfigV2 12) g out hg hok with
              ⟨hsan, hfix2, hvas2⟩
            simp only [validateV2ConfigData, hsan, hfix2, hvas2]
        | vNull =>
            simp only [validateV2ConfigData, hs, Except.ok.injEq] at hok
            rw [show validateAgainstSchema Value.vNull configDataSchemaV2 = none
              from rfl] at hok
            cases hok
        | vBool b =>
            simp only [validateV2ConfigData, hs, Except.ok.injEq] at hok
            rw [show validateAgainstSchema (Value.vBool b) configDataSchemaV2 = none
              from rfl] at hok
            cases hok
        | vNum q =>
            simp only [validateV2ConfigData, hs, Except.ok.injEq] at hok
            rw [show validateAgainstSchema (Value.vNum q) configDataSchemaV2 = none
              from rfl] at hok
            cases hok
        | vStr s =>
            simp only [validateV2ConfigData, hs, Except.ok.injEq] at hok
            rw [show validateAgainstSchema (Value.vStr s) configDataSchemaV2 = none
              from rfl] at hok
            cases hok
        | vArr a =>
            simp only [validateV2ConfigData, hs, Except.ok.injEq] at hok
            rw [show validateAgainstSchema (Value.vArr a) configDataSchemaV2 = none
              from rfl] at hok
            cases hok
  · intro hok
    cases hs : sanitizeTeams cleanTeamV23 r with
    | error e => simp [validateV3ConfigData, hs] at hok
    | ok d =>
        cases d with
        | vObj g =>
            simp only [validateV3ConfigData, hs, Except.ok.injEq] at hok
            rcases validateAgainstSchema_shape configDataSchemaV3 _ rfl _ w hok with ⟨out, rfl⟩
            have hg := sanitizeTeams_good cleanTeamV23 cleanTeamV23_url r g hs
            rcases validateV23_idem_core configDataSchemaV3 _ _ rfl
              (List.mem_cons_of_mem _ (List.mem_cons_self _ _))
              (by repeat first | exact List.mem_cons_self _ _ | apply List.mem_cons_of_mem)
              (List.mem_cons_of_mem _ (List.mem_cons_self _ _))
              (by decide) (by decide) (okfConfigV3 12) g out hg hok with
              ⟨hsan, hfix2, hvas2⟩
            simp only [validateV3ConfigData, hsan, hfix2, hvas2]
        | vNull =>
            simp only [validateV3ConfigData, hs, Except.ok.injEq] at hok
            rw [show validateAgainstSchema Value.vNull configDataSchemaV3 = none
              from rfl] at hok
            cases hok
        | vBool b =>
            simp only [validateV3ConfigData, hs, Except.ok.injEq] at hok
            rw [show validateAgainstSchema (Value.vBool b) configDataSchemaV3 = none
              from rfl] at hok
            cases hok
        | vNum q =>
            simp only [validateV3ConfigData, hs, Except.ok.injEq] at hok
            rw [show validateAgainstSchema (Value.vNum q) configDataSchemaV3 = none
              from rfl] at hok
            cases hok
        | vStr s =>
            simp only [validateV3ConfigData, hs, Except.ok.injEq] at hok
            rw [show validateAgainstSchema (Value.vStr s) configDataSchemaV3 = none
              from rfl] at hok
            cases hok
        | vArr a =>
            simp only [validateV3ConfigData, hs, Except.ok.injEq] at hok
            rw [show validateAgainstSchema (Value.vArr a) configDataSchemaV3 = none
              from rfl] at hok
            cases hok

/-- Witness for C4: the fully defaulted V2 record revalidates to itself. -/
theorem claim4_idempotent_witness :
    validateV2ConfigData (.vObj [("version", .vNum 2), ("teams", .vArr []),
      ("showTrayIcon", .vBool false), ("trayIconTheme", .vStr "light"),
      ("minimizeToTray", .vBool false), ("showUnreadBadge", .vBool true),
      ("useSpellChecker", .vBool true), ("enableHardwareAcceleration", .vBool true),
      ("autostart", .vBool true), ("spellCheckerLocale", .vStr "en-US"),
      ("darkMode", .vBool false)]) =
    .ok (some (.vObj [("version", .vNum 2), ("teams", .vArr []),
      ("showTrayIcon", .vBool false), ("trayIconTheme", .vStr "light"),
      ("minimizeToTray", .vBool false), ("showUnreadBadge", .vBool true),
      ("useSpellChecker", .vBool true), ("enableHardwareAcceleration", .vBool true),
      ("autostart", .vBool true), ("spellCheckerLocale", .vStr "en-US"),
      ("darkMode", .vBool false)])) :=
  (claim4_idempotent (.vObj [])
    (.vObj [("version", .vNum 2), ("teams", .vArr []),
      ("showTrayIcon", .vBool false), ("trayIconTheme", .vStr "light"),
      ("minimizeToTray", .vBool false), ("showUnreadBadge", .vBool true),
      ("useSpellChecker", .vBool true), ("enableHardwareAcceleration", .vBool true),
      ("autostart", .vBool true), ("spellCheckerLocale", .vStr "en-US"),
      ("darkMode", .vBool false)])).2.1 rfl
